import Mathlib

/-!
Verification development for the ZMv6 STT studio (`src/app.py`).

The Python source is shallowly embedded: times and seconds are modelled as
rationals (the source uses IEEE doubles; on every comparison appearing in the
claims the float computation agrees with exact rational arithmetic, which is
noted at the definition involved), Python strings are modelled as `List Char`
(one element per Unicode code point, like Python's `len`/indexing), and the
regular-expression substitutions of the source are implemented as explicit
scanners with the same match semantics.  External collaborators (ffmpeg,
ffprobe, the Silero VAD model, the HTTP providers, the filesystem and the
clock) enter as explicit parameters of the embedded functions.
-/

namespace ZM

/-- Python's `clamp(v, lo, hi) = max(lo, min(hi, v))` from src/app.py. -/
def qclamp (v lo hi : ℚ) : ℚ := max lo (min hi v)

/-- Python's builtin `round` on a rational value: round half to even
(banker's rounding), as used by `srt_ts`. -/
def pyRound (x : ℚ) : ℤ :=
  let f : ℤ := ⌊x⌋
  let r : ℚ := x - (f : ℚ)
  if r < 1/2 then f
  else if 1/2 < r then f + 1
  else if f % 2 = 0 then f else f + 1

/-- Whitespace for Python's regex `\s` on `str` and for `str.strip()`:
ASCII whitespace plus the Unicode whitespace code points. -/
def isPyWs (c : Char) : Bool :=
  let n := c.toNat
  (9 ≤ n && n ≤ 13) || n = 32 || (28 ≤ n && n ≤ 31) || n = 0x85 || n = 0xa0 ||
  n = 0x1680 || (0x2000 ≤ n && n ≤ 0x200a) || n = 0x2028 || n = 0x2029 ||
  n = 0x202f || n = 0x205f || n = 0x3000

/-- The CJK code-point ranges used by `normalize_transcript_text`
(U+4E00-9FFF, U+3040-30FF, U+31F0-31FF, U+AC00-D7AF). -/
def isCJK (c : Char) : Bool :=
  let n := c.toNat
  (0x4e00 ≤ n && n ≤ 0x9fff) || (0x3040 ≤ n && n ≤ 0x30ff) ||
  (0x31f0 ≤ n && n ≤ 0x31ff) || (0xac00 ≤ n && n ≤ 0xd7af)

/-- ASCII alphanumeric, the class `[A-Za-z0-9]` of the source. -/
def isAsciiAlnum (c : Char) : Bool :=
  let n := c.toNat
  (48 ≤ n && n ≤ 57) || (65 ≤ n && n ≤ 90) || (97 ≤ n && n ≤ 122)

/-- Python `str.strip()` on the code-point list model. -/
def pyStrip (l : List Char) : List Char :=
  ((l.dropWhile isPyWs).reverse.dropWhile isPyWs).reverse

/-- True when the string ends in `[A-Za-z0-9]`, the source's
`re.search(r"[A-Za-z0-9]$", s)`. -/
def lastIsAlnum (l : List Char) : Bool :=
  match l.getLast? with
  | some c => isAsciiAlnum c
  | none => false

/-- Scanner of `re.sub(p+, r, s)` for a character class `p`: every maximal
run of class characters is replaced by the single character `r`.  The fuel
argument of this and the following scanners only drives structural
recursion: every step consumes at least one input character, so the wrapper
supplies the input length as fuel and the fuel-exhausted branch (which
returns the rest unchanged) is unreachable. -/
def replaceRunWithGo (p : Char → Bool) (r : Char) : ℕ → List Char → List Char
  | _, [] => []
  | 0, l => l
  | fuel + 1, c :: rest =>
    if p c then r :: replaceRunWithGo p r fuel (rest.dropWhile p)
    else c :: replaceRunWithGo p r fuel rest

/-- Model of `re.sub(p+, r, s)` for a character class `p`. -/
def replaceRunWith (p : Char → Bool) (r : Char) (l : List Char) : List Char :=
  replaceRunWithGo p r l.length l

/-- Scanner for `collapseWsRuns`; fuel as in `replaceRunWithGo`. -/
def collapseWsRunsGo : ℕ → List Char → List Char
  | _, [] => []
  | 0, l => l
  | _ + 1, [c] => [c]
  | fuel + 1, c :: d :: rest =>
    if isPyWs c && isPyWs d then ' ' :: collapseWsRunsGo fuel (rest.dropWhile isPyWs)
    else c :: collapseWsRunsGo fuel (d :: rest)

/-- Model of `re.sub(r"\s{2,}", " ", s)`: every maximal whitespace run of
length at least two becomes a single ASCII space; single whitespace
characters are left as they are. -/
def collapseWsRuns (l : List Char) : List Char := collapseWsRunsGo l.length l

/-- Scanner for `despaceBetween`; fuel as in `replaceRunWithGo`. -/
def despaceBetweenGo (A B : Char → Bool) : ℕ → List Char → List Char
  | _, [] => []
  | 0, l => l
  | fuel + 1, c :: rest =>
    if A c && (rest.takeWhile isPyWs ≠ [] &&
        (match rest.dropWhile isPyWs with
         | d :: _ => B d
         | [] => false)) then
      c :: despaceBetweenGo A B fuel (rest.dropWhile isPyWs)
    else c :: despaceBetweenGo A B fuel rest

/-- Model of `re.sub(r"(?<=[A])\s+(?=[B])", "", s)`: a maximal whitespace run
immediately preceded by a class-`A` character and immediately followed by a
class-`B` character is deleted. -/
def despaceBetween (A B : Char → Bool) (l : List Char) : List Char :=
  despaceBetweenGo A B l.length l

/-- Scanner for `delWsBefore`; fuel as in `replaceRunWithGo`.  In the match
branch the leading character is whitespace, so the whole run
`(c :: rest).dropWhile isPyWs = rest.dropWhile isPyWs` is deleted. -/
def delWsBeforeGo (B : Char → Bool) : ℕ → List Char → List Char
  | _, [] => []
  | 0, l => l
  | fuel + 1, c :: rest =>
    if isPyWs c && (match rest.dropWhile isPyWs with
        | d :: _ => B d
        | [] => false) then
      delWsBeforeGo B fuel (rest.dropWhile isPyWs)
    else c :: delWsBeforeGo B fuel rest

/-- Model of `re.sub(r"\s+([B])", r"\1", s)`: a maximal whitespace run
immediately followed by a class-`B` character is deleted. -/
def delWsBefore (B : Char → Bool) (l : List Char) : List Char :=
  delWsBeforeGo B l.length l

/-- Scanner for `delWsAfter`; fuel as in `replaceRunWithGo`. -/
def delWsAfterGo (A : Char → Bool) : ℕ → List Char → List Char
  | _, [] => []
  | 0, l => l
  | fuel + 1, c :: rest =>
    if A c then c :: delWsAfterGo A fuel (rest.dropWhile isPyWs)
    else c :: delWsAfterGo A fuel rest

/-- Model of `re.sub(r"([A])\s+", r"\1", s)`: a maximal whitespace run
immediately preceded by a class-`A` character is deleted. -/
def delWsAfter (A : Char → Bool) (l : List Char) : List Char :=
  delWsAfterGo A l.length l

/-- Scanner for `collapsePunctRuns`; fuel as in `replaceRunWithGo`. -/
def collapsePunctRunsGo (cls : Char → Bool) : ℕ → List Char → List Char
  | _, [] => []
  | 0, l => l
  | fuel + 1, c :: rest =>
    if cls c && 2 ≤ (rest.takeWhile (· = c)).length then
      c :: c :: collapsePunctRunsGo cls fuel (rest.dropWhile (· = c))
    else c :: collapsePunctRunsGo cls fuel rest

/-- Model of `re.sub(r"([cls])\1{2,}", r"\1\1", s)`: a run of three or more
copies of the same class character collapses to two copies. -/
def collapsePunctRuns (cls : Char → Bool) (l : List Char) : List Char :=
  collapsePunctRunsGo cls l.length l

/-- Characters allowed in an HTML named character reference after `&`:
the class `[^\t\n\f <&#;]` of CPython's `html` module. -/
def charRefNameChar (c : Char) : Bool :=
  !(c = '\t' || c = '\n' || c = '\x0c' || c = ' ' || c = '<' || c = '&' ||
    c = '#' || c = ';')

/-- Modelled from CPython `html.unescape`: the table of named character
references used by this development.  CPython resolves the full HTML5 table;
this model is restricted to the basic ASCII entities (with and without the
trailing semicolon, as in HTML5's legacy list), so it agrees with CPython on
every string whose ampersand sequences involve only these names. -/
def namedRefs : List (List Char × List Char) :=
  [("amp;".data, "&".data), ("amp".data, "&".data),
   ("lt;".data, "<".data), ("lt".data, "<".data),
   ("gt;".data, ">".data), ("gt".data, ">".data),
   ("quot;".data, "\"".data), ("quot".data, "\"".data)]

/-- Exact lookup of a character-reference group in `namedRefs`. -/
def lookupNamed (s : List Char) : Option (List Char) :=
  (namedRefs.find? (fun p => p.1 == s)).map (·.2)

/-- CPython's fallback for names without a final semicolon: try prefixes
`s.take k` for `k` descending to 2; on a hit the unmatched tail is emitted
verbatim after the replacement. -/
def lookupRefDown (s : List Char) : ℕ → Option (List Char × List Char)
  | 0 => none
  | 1 => none
  | k + 2 =>
    match lookupNamed (s.take (k + 2)) with
    | some rep => some (rep, s.drop (k + 2))
    | none => lookupRefDown s (k + 1)

/-- CPython `html._replace_charref` name resolution: exact match first, then
the longest matching prefix of length at least 2. -/
def resolveCharRef (s : List Char) : Option (List Char × List Char) :=
  match lookupNamed s with
  | some rep => some (rep, [])
  | none => lookupRefDown s (s.length - 1)

/-- Python's `in` operator on strings: `pyContains pat l` is true when
`pat` occurs as a contiguous substring of `l`. -/
def pyContains (pat : List Char) : List Char → Bool
  | [] => pat.isEmpty
  | c :: rest => (((c :: rest).take pat.length) == pat) || pyContains pat rest

/-- ASCII decimal digit. -/
def isDigitChar (c : Char) : Bool := 48 ≤ c.toNat && c.toNat ≤ 57

/-- ASCII hexadecimal digit. -/
def isHexChar (c : Char) : Bool :=
  isDigitChar c || (97 ≤ c.toNat && c.toNat ≤ 102) || (65 ≤ c.toNat && c.toNat ≤ 70)

/-- Numeric value of a decimal digit character. -/
def digitVal (c : Char) : ℕ := c.toNat - 48

/-- Numeric value of a hexadecimal digit character. -/
def hexVal (c : Char) : ℕ :=
  if isDigitChar c then c.toNat - 48
  else if 97 ≤ c.toNat then c.toNat - 87
  else c.toNat - 55

/-- Value of a big-endian decimal digit string. -/
def parseNatDigits (l : List Char) : ℕ := l.foldl (fun a c => a * 10 + digitVal c) 0

/-- Value of a big-endian hexadecimal digit string. -/
def parseNatHex (l : List Char) : ℕ := l.foldl (fun a c => a * 16 + hexVal c) 0

/-- Character produced by a numeric character reference: the code point when
it is a valid scalar value, else U+FFFD.  (CPython additionally remaps a
small windows-1252 table of control codes, which this development never
evaluates on.) -/
def numRefChar (n : ℕ) : Char :=
  if n < 0xd800 ∨ (0xdfff < n ∧ n < 0x110000) then Char.ofNat n
  else Char.ofNat 0xfffd

/-- Reading of one character reference right after an ampersand, following
CPython's `_charref` regex `&(#[0-9]+;?|#[xX][0-9a-fA-F]+;?|[^\t\n\f <&#;]{1,32};?)`
and `_replace_charref`; returns the replacement text (never rescanned) and
the remaining input. -/
def readCharRef (rest : List Char) : Option (List Char × List Char) :=
  match rest with
  | '#' :: t =>
    match t with
    | x :: t2 =>
      if x = 'x' || x = 'X' then
        let ds := t2.takeWhile isHexChar
        if ds = [] then none else
        let t3 := t2.drop ds.length
        let t4 := if t3.head? = some ';' then t3.drop 1 else t3
        some ([numRefChar (parseNatHex ds)], t4)
      else
        let ds := (x :: t2).takeWhile isDigitChar
        if ds = [] then none else
        let t3 := (x :: t2).drop ds.length
        let t4 := if t3.head? = some ';' then t3.drop 1 else t3
        some ([numRefChar (parseNatDigits ds)], t4)
    | [] => none
  | _ =>
    let name := (rest.takeWhile charRefNameChar).take 32
    if name = [] then none else
    let t2 := rest.drop name.length
    let grpT3 : List Char × List Char :=
      if t2.head? = some ';' then (name ++ [';'], t2.drop 1) else (name, t2)
    match resolveCharRef grpT3.1 with
    | some (rep, leftover) => some (rep ++ leftover, grpT3.2)
    | none => some ('&' :: grpT3.1, grpT3.2)

/-- Scanner of CPython `html.unescape`: substitutes character references
left to right; replacement text is not rescanned.  The fuel argument only
drives termination: each step consumes at least one input character, so
`htmlUnescape` supplies `l.length` fuel and the bail-out branch is
unreachable. -/
def htmlUnescapeGo : ℕ → List Char → List Char
  | _, [] => []
  | 0, l => l
  | fuel + 1, c :: rest =>
    if c = '&' then
      match readCharRef rest with
      | some (rep, rest') => rep ++ htmlUnescapeGo fuel rest'
      | none => '&' :: htmlUnescapeGo fuel rest
    else c :: htmlUnescapeGo fuel rest

/-- CPython `html.unescape`: the input is returned unchanged when it
contains no ampersand. -/
def htmlUnescape (l : List Char) : List Char :=
  if l.contains '&' then htmlUnescapeGo l.length l else l

/-- The ideographic space U+3000, replaced by an ASCII space first thing in
`normalize_transcript_text`. -/
def ideographicSpace : Char := Char.ofNat 0x3000

/-- The class `[\t\r\f\v]` of `normalize_transcript_text`. -/
def isTabFfCrVt (c : Char) : Bool :=
  c = '\t' || c = '\r' || c = '\x0c' || c = '\x0b'

/-- The class `[,，。！？!?:：；;]` whose members lose the whitespace before
them in `normalize_transcript_text`. -/
def punctNoSpaceBefore (c : Char) : Bool :=
  c = ',' || c = '，' || c = '。' || c = '！' || c = '？' || c = '!' || c = '?' ||
  c = ':' || c = '：' || c = '；' || c = ';'

/-- The opening brackets `[(（\[【{]` of `normalize_transcript_text`. -/
def isOpenBracket (c : Char) : Bool :=
  c = '(' || c = '（' || c = '[' || c = '【' || c = Char.ofNat 123

/-- The closing brackets `[)）\]】}]` of `normalize_transcript_text`. -/
def isCloseBracket (c : Char) : Bool :=
  c = ')' || c = '）' || c = ']' || c = '】' || c = Char.ofNat 125

/-- The class `[!?！？。.,，]` whose runs of length at least 3 collapse to
length 2 in `normalize_transcript_text`. -/
def repeatablePunct (c : Char) : Bool :=
  c = '!' || c = '?' || c = '！' || c = '？' || c = '。' || c = '.' ||
  c = ',' || c = '，'

/-- The CJK punctuation class `[，。！？、；：]` of the conditional second
de-spacing pass of `normalize_transcript_text`. -/
def isCjkPunct (c : Char) : Bool :=
  c = '，' || c = '。' || c = '！' || c = '？' || c = '、' || c = '；' || c = '：'

/-- Shallow embedding of `normalize_transcript_text` (src/app.py:922-951).
Python's `model.lower()` is modelled with the ASCII `Char.toLower`, which
agrees with CPython on the ASCII model names of this system. -/
def normalize_transcript_text (text : List Char) (language : List Char)
    (model : List Char) : List Char :=
  if text = [] then [] else
  let x := htmlUnescape text
  let x := x.map (fun c => if c = ideographicSpace then ' ' else c)
  let x := replaceRunWith isTabFfCrVt ' ' x
  let x := replaceRunWith (· = '\n') ' ' x
  let x := pyStrip (collapseWsRuns x)
  let x := despaceBetween isCJK isCJK x
  let x := delWsBefore punctNoSpaceBefore x
  let x := delWsAfter isOpenBracket x
  let x := delWsBefore isCloseBracket x
  let x := collapsePunctRuns repeatablePunct x
  let ml := model.map Char.toLower
  let x :=
    if language = "zh".data || language = "ja".data || language = "auto".data ||
        pyContains "whisper".data ml || pyContains "kotoba".data ml then
      let x := despaceBetween isCJK isCJK x
      let x := despaceBetween isCJK isCjkPunct x
      let x := despaceBetween isCjkPunct isCJK x
      x
    else x
  pyStrip x

/-- Sentence-final punctuation class of `_split_by_punctuation`:
`[。！？!?；;…\.!?]` (the repeated `!?` of the source are redundant). -/
def sentencePunct (c : Char) : Bool :=
  c = '。' || c = '！' || c = '？' || c = '!' || c = '?' || c = '；' || c = ';' ||
  c = '…' || c = '.'

/-- The weak-split class `[,;]` used on long English pieces. -/
def commaSemicolon (c : Char) : Bool := c = ',' || c = ';'

/-- Scanner of `re.split(r"(?<=[cls])\s+", text)`: the string is cut at
every maximal whitespace run immediately preceded by a class character; the
whitespace is consumed.  `acc` holds the current part reversed; fuel as in
`replaceRunWithGo`. -/
def splitAfterPunctGo (cls : Char → Bool) : ℕ → List Char → List Char → List (List Char)
  | _, acc, [] => [acc.reverse]
  | 0, acc, l => [acc.reverse ++ l]
  | fuel + 1, acc, c :: rest =>
    if isPyWs c && (match acc with
        | p :: _ => cls p
        | [] => false) then
      acc.reverse :: splitAfterPunctGo cls fuel [] (rest.dropWhile isPyWs)
    else splitAfterPunctGo cls fuel (c :: acc) rest

/-- Split at whitespace runs following a class character, as in
`re.split(r"(?<=[cls])\s+", text)`. -/
def splitAfterPunct (cls : Char → Bool) (text : List Char) : List (List Char) :=
  splitAfterPunctGo cls text.length [] text

/-- Shallow embedding of `_split_by_punctuation` (src/app.py:954-974). -/
def split_by_punctuation (text : List Char) (language : List Char) : List (List Char) :=
  if text = [] then [] else
  let parts := splitAfterPunct sentencePunct text
  let parts :=
    if language = "en".data then
      (parts.map (fun p =>
        let p := pyStrip p
        if 72 < p.length && (p.contains ',' || p.contains ';') then
          (splitAfterPunct commaSemicolon p).filter (fun x => pyStrip x ≠ [])
        else [p])).flatten
    else parts
  let out := (parts.map pyStrip).filter (· ≠ [])
  if out = [] then [text] else out

/-- Shallow embedding of `_char_budget` (src/app.py:977-985). -/
def char_budget (language model : List Char) : ℕ :=
  let ml := model.map Char.toLower
  if language = "ja".data then 20
  else if language = "zh".data then 24
  else if language = "auto".data &&
      (pyContains "kotoba".data ml || pyContains "whisper".data ml) then 22
  else 42

/-- Scanner for `hardChunks`; fuel as in `replaceRunWithGo`. -/
def hardChunksGo (b : ℕ) : ℕ → List Char → List (List Char)
  | _, [] => []
  | 0, _ => []
  | fuel + 1, c :: rest => (c :: rest).take b :: hardChunksGo b fuel (rest.drop (b - 1))

/-- The hard-cut loop of `split_text_for_srt`: slices `s[start:start+b]`
until exhaustion.  Only called with `b ≥ 10` (the clamped budget). -/
def hardChunks (b : ℕ) (l : List Char) : List (List Char) :=
  hardChunksGo b l.length l

/-- The `flush()` closure of `split_text_for_srt`: emit the stripped
accumulator when it is non-empty. -/
def flushCur (cur : List Char) : List (List Char) :=
  let c := pyStrip cur
  if c = [] then [] else [c]

/-- The sentence-packing loop of `split_text_for_srt` (src/app.py:1005-1030):
`cur` is the open line, `acc` the lines flushed so far.  The source compares
`len(s) > budget * 1.8` in floats; for every integer budget the float product
`budget * 1.8` lies strictly between the integers surrounding `9*budget/5`
exactly when the rational does, so the comparison is embedded exactly as
`9 * budget < 5 * len`. -/
def packGo (budget : ℕ) : List (List Char) → List Char → List (List Char) → List (List Char)
  | [], cur, acc => acc ++ flushCur cur
  | s :: rest, cur, acc =>
    let s' := pyStrip s
    if s' = [] then packGo budget rest cur acc
    else if 9 * budget < 5 * s'.length then
      packGo budget rest [] (acc ++ flushCur cur ++ hardChunks budget s')
    else if cur = [] then packGo budget rest s' acc
    else
      let cand := if lastIsAlnum cur then cur ++ ' ' :: s' else cur ++ s'
      if cand.length ≤ budget then packGo budget rest cand acc
      else packGo budget rest s' (acc ++ flushCur cur)

/-- The short-line merge pass of `split_text_for_srt` (src/app.py:1033-1043);
`acc` holds the already-merged lines in reverse. -/
def mergeShortGo (budget : ℕ) (acc : List (List Char)) : List (List Char) → List (List Char)
  | [] => acc.reverse
  | line :: rest =>
    match acc with
    | [] => mergeShortGo budget [line] rest
    | prev :: accT =>
      if line.length < max 4 (budget / 5) ∧ prev.length + line.length + 1 ≤ budget + 6 then
        let sep := if lastIsAlnum prev then [' '] else []
        mergeShortGo budget ((prev ++ sep ++ line) :: accT) rest
      else mergeShortGo budget (line :: acc) rest

/-- The clamped character budget of `split_text_for_srt`: Python's
`budget = max_chars or _char_budget(...)` (an explicit 0 counts as absent)
followed by `max(10, min(100, budget))`. -/
def clamped_budget (language : List Char) (maxChars : Option ℕ)
    (model : List Char) : ℕ :=
  let b0 := match maxChars with
    | some m => if m = 0 then char_budget language model else m
    | none => char_budget language model
  max 10 (min 100 b0)

/-- Shallow embedding of `split_text_for_srt` (src/app.py:988-1043). -/
def split_text_for_srt (text : List Char) (language : List Char)
    (maxChars : Option ℕ) (model : List Char) : List (List Char) :=
  if text = [] then [] else
  let budget := clamped_budget language maxChars model
  let sentences := split_by_punctuation text language
  let lines := packGo budget sentences [] []
  mergeShortGo budget [] lines

/-- A subtitle cue `(start, end, text)`; the `end` field is named `stop`
because `end` is reserved in Lean. -/
structure Cue where
  start : ℚ
  stop : ℚ
  text : List Char
deriving DecidableEq, Repr

/-- The weights `[max(1, len(x)) for x in lines]` of `allocate_line_times`. -/
def lineWeight (l : List Char) : ℚ := max 1 (l.length : ℚ)

/-- Total weight of a line list. -/
def totalWeight (lines : List (List Char)) : ℚ :=
  (lines.map lineWeight).sum

/-- The allocation loop of `allocate_line_times` (src/app.py:1058-1065):
the last line ends at `segEnd`, earlier lines get
`min(segEnd, t + max(0.3, dur * w/total))`. -/
def allocGo (segEnd dur totalW : ℚ) (t : ℚ) : List (List Char) → List Cue
  | [] => []
  | [l] => [⟨t, segEnd, l⟩]
  | l :: l2 :: rest =>
    let piece := max (3/10) (dur * (lineWeight l / totalW))
    let nxt := min segEnd (t + piece)
    ⟨t, nxt, l⟩ :: allocGo segEnd dur totalW nxt (l2 :: rest)

/-- The overlap-correction pass of `allocate_line_times`
(src/app.py:1068-1075). -/
def fixOverlapGo (prevEnd : ℚ) : List Cue → List Cue
  | [] => []
  | c :: rest =>
    let s := max c.start prevEnd
    let e := max c.stop (s + 9/50)
    ⟨s, e, c.text⟩ :: fixOverlapGo e rest

/-- The final snap of `allocate_line_times` (src/app.py:1078-1080): the last
cue's end becomes `max(its start + 0.18, seg_end)`. -/
def snapLast (segEnd : ℚ) : List Cue → List Cue
  | [] => []
  | [c] => [⟨c.start, max (c.start + 9/50) segEnd, c.text⟩]
  | c :: c2 :: rest => c :: snapLast segEnd (c2 :: rest)

/-- Shallow embedding of `allocate_line_times` (src/app.py:1046-1081). -/
def allocate_line_times (segStart segEnd : ℚ) (lines : List (List Char)) : List Cue :=
  match lines with
  | [] => []
  | [l] => [⟨segStart, segEnd, l⟩]
  | _ =>
    let dur := max (1/5) (segEnd - segStart)
    let cues := allocGo segEnd dur (totalWeight lines) segStart lines
    snapLast segEnd (fixOverlapGo segStart cues)

/-- Little-endian decimal digit loop; the fuel (at least `n`) only drives
structural recursion, as each division by ten strictly decreases a positive
argument. -/
def natDigitsLEGo : ℕ → ℕ → List ℕ
  | 0, n => [n]
  | fuel + 1, n => if n < 10 then [n] else n % 10 :: natDigitsLEGo fuel (n / 10)

/-- Little-endian decimal digits of a natural number. -/
def natDigitsLE (n : ℕ) : List ℕ := natDigitsLEGo n n

/-- Decimal digit character. -/
def digitChar10 (d : ℕ) : Char := Char.ofNat (48 + d)

/-- Decimal representation of a natural number as characters
(Python `str(n)` / `repr`). -/
def natChars (n : ℕ) : List Char := (natDigitsLE n).reverse.map digitChar10

/-- Python's `f"{n:02d}"`: decimal digits left-padded with zeros to width 2
(wider numbers print in full). -/
def pad2 (n : ℕ) : List Char :=
  let d := natChars n
  List.replicate (2 - d.length) '0' ++ d

/-- Python's `f"{n:03d}"`. -/
def pad3 (n : ℕ) : List Char :=
  let d := natChars n
  List.replicate (3 - d.length) '0' ++ d

/-- Shallow embedding of `srt_ts` (src/app.py:396-401): format a time in
seconds as `HH:MM:SS,mmm`, clamping negatives to zero and rounding to
milliseconds with Python's banker's rounding. -/
def srt_ts (seconds : ℚ) : List Char :=
  let ms0 := (pyRound (max 0 seconds * 1000)).toNat
  let hh := ms0 / 3600000
  let r1 := ms0 % 3600000
  let mm := r1 / 60000
  let r2 := r1 % 60000
  let ss := r2 / 1000
  let ms := r2 % 1000
  pad2 hh ++ ':' :: (pad2 mm ++ ':' :: (pad2 ss ++ ',' :: pad3 ms))

/-- Value of a decimal digit string, reading left to right; `none` when the
string is empty or contains a non-digit. -/
def parseDecimal (l : List Char) : Option ℕ :=
  if l = [] then none
  else if l.all isDigitChar then some (parseNatDigits l) else none

/-- Modelled from the spec: parse a `HH:MM:SS,mmm` timestamp (the format
produced by `srt_ts`, §6.2 of the spec) back to seconds.  The repository
itself contains no SRT parser; this is the spec's round-trip reading. -/
def parse_srt_ts (sIn : List Char) : Option ℚ :=
  let hh := sIn.takeWhile (· ≠ ':')
  let rest1 := (sIn.dropWhile (· ≠ ':')).drop 1
  let mm := rest1.takeWhile (· ≠ ':')
  let rest2 := (rest1.dropWhile (· ≠ ':')).drop 1
  let ss := rest2.takeWhile (· ≠ ',')
  let ms := (rest2.dropWhile (· ≠ ',')).drop 1
  match parseDecimal hh, parseDecimal mm, parseDecimal ss, parseDecimal ms with
  | some h, some m, some s, some x =>
    some ((h : ℚ) * 3600 + (m : ℚ) * 60 + (s : ℚ) + (x : ℚ) / 1000)
  | _, _, _, _ => none

/-- A per-segment transcription outcome (the dataclass `SegmentResult` of
src/app.py:1202-1210); the segment end is named `stop`. -/
structure SegmentResult where
  ok : Bool
  idx : ℕ
  start : ℚ
  stop : ℚ
  text : List Char
  error : Option (List Char) := none
  code : ℕ := 0
deriving DecidableEq, Repr

/-- The sort key order of `build_srt`: Python tuple comparison on
`(start, end, idx)`. -/
def resultKeyLE (a b : SegmentResult) : Bool :=
  if a.start ≠ b.start then a.start < b.start
  else if a.stop ≠ b.stop then a.stop < b.stop
  else a.idx ≤ b.idx

/-- Stable insertion of a result into a key-sorted list: the new element
goes after every element whose key is less than or equal, matching the
stability of Python's `sorted`. -/
def insSorted (a : SegmentResult) : List SegmentResult → List SegmentResult
  | [] => [a]
  | b :: rest => if resultKeyLE b a then b :: insSorted a rest else a :: b :: rest

/-- Stable sort by `(start, end, idx)`, as `sorted(..., key=...)` in
`build_srt`. -/
def sortResults : List SegmentResult → List SegmentResult
  | [] => []
  | a :: rest => insSorted a (sortResults rest)

/-- The final de-overlap sweep of `build_srt` (src/app.py:1280-1290): empty
texts are dropped, starts are pushed to the previous end, and an end not
after its start becomes `start + 0.2`. -/
def sweepCues (prevEnd : ℚ) : List Cue → List Cue
  | [] => []
  | c :: rest =>
    let t := pyStrip c.text
    if t = [] then sweepCues prevEnd rest
    else
      let s := max c.start prevEnd
      let e := if c.stop ≤ s then s + 1/5 else c.stop
      ⟨s, e, t⟩ :: sweepCues e rest

/-- Scanner for `compactCues`: every step shortens the list by one, so the
input length is sufficient fuel and the fuel-exhausted branch is
unreachable. -/
def compactCuesGo : ℕ → List Cue → List Cue
  | 0, l => l
  | _ + 1, [] => []
  | _ + 1, [c] => [c]
  | fuel + 1, c :: d :: rest =>
    if d.text = c.text ∧ d.start - c.stop ≤ 3/25 then
      compactCuesGo fuel (⟨c.start, max c.stop d.stop, c.text⟩ :: rest)
    else c :: compactCuesGo fuel (d :: rest)

/-- The compaction pass of `build_srt` (src/app.py:1292-1300): a cue whose
text equals the previous cue's text and whose gap to it is at most 0.12s is
merged into it. -/
def compactCues (l : List Cue) : List Cue := compactCuesGo l.length l

/-- The cue list assembled by `build_srt` (src/app.py:1269-1300) before
serialization: filter `ok` results with text, sort, expand into per-line
cues, sweep, compact. -/
def build_srt_cues (results : List SegmentResult) (language : List Char)
    (model : List Char) : List Cue :=
  let rs := sortResults (results.filter (fun r => r.ok && r.text ≠ []))
  let cues := (rs.map (fun r =>
    allocate_line_times r.start r.stop
      (split_text_for_srt r.text language none model))).flatten
  compactCues (sweepCues 0 cues)

/-- Serialization of one SRT block:
`f"{i}\n{srt_ts(s)} --> {srt_ts(e)}\n{txt}\n"`. -/
def srtBlock (i : ℕ) (c : Cue) : List Char :=
  natChars i ++ '\n' :: (srt_ts c.start ++ " --> ".data ++ srt_ts c.stop ++
    '\n' :: (c.text ++ ['\n']))

/-- Number the cues from 1 and serialize each block. -/
def srtBlocks (i : ℕ) : List Cue → List (List Char)
  | [] => []
  | c :: rest => srtBlock i c :: srtBlocks (i + 1) rest

/-- Interleave a separator, Python `"\n".join(...)`. -/
def joinSep (sep : List Char) : List (List Char) → List Char
  | [] => []
  | [l] => l
  | l :: l2 :: rest => l ++ sep ++ joinSep sep (l2 :: rest)

/-- Shallow embedding of `build_srt` (src/app.py:1269-1306): the serialized
SRT text, `"\n".join(blocks).strip() + "\n"`. -/
def build_srt (results : List SegmentResult) (language : List Char)
    (model : List Char) : List Char :=
  pyStrip (joinSep ['\n'] (srtBlocks 1 (build_srt_cues results language model))) ++ ['\n']

/-- A speech segment `[start, end]` in seconds (the dataclass `SpeechSeg`
of src/app.py:658-665); the end is named `stop`. -/
structure SpeechSeg where
  start : ℚ
  stop : ℚ
deriving DecidableEq, Repr

/-- The property `dur = max(0.0, end - start)` of `SpeechSeg`. -/
def SpeechSeg.dur (s : SpeechSeg) : ℚ := max 0 (s.stop - s.start)

/-- Default `MAX_SEGMENT_SECONDS` (15.0; the env override is clamped to
[5, 30]). -/
def MAX_SEGMENT_SECONDS : ℚ := 15

/-- Default `MIN_SEGMENT_SECONDS` (0.25; the env override is clamped to
[0.1, 2]). -/
def MIN_SEGMENT_SECONDS : ℚ := 1/4

/-- The force-split loop of `detect_speech_segments` (src/app.py:761-767):
starting at `cur`, emit pieces of at most `MAX_SEGMENT_SECONDS` while more
than 0.05s remains.  The fuel only drives structural recursion: every
iteration either advances `cur` by exactly `MAX_SEGMENT_SECONDS` or is the
final one reaching `segEnd`, so `⌈segEnd - cur⌉ + 1` iterations always
suffice and the fuel-exhausted branch is unreachable for the fuel supplied
by `detect_speech_segments`. -/
def splitLongGo : ℕ → ℚ → ℚ → List SpeechSeg
  | 0, _, _ => []
  | fuel + 1, segEnd, cur =>
    if cur < segEnd - 1/20 then
      let nxt := min (cur + MAX_SEGMENT_SECONDS) segEnd
      ⟨cur, nxt⟩ :: splitLongGo fuel segEnd nxt
    else []

/-- Fuel supplied to `splitLongGo` for a segment. -/
def splitFuel (seg : SpeechSeg) : ℕ := (⌈seg.stop - seg.start⌉).toNat + 1

/-- Shallow embedding of the pure part of `detect_speech_segments`
(src/app.py:713-769).  The externals become parameters: `speechTs` is the
Silero VAD output (`start`/`end` sample indices at 16 kHz) and `totalDur`
the `ffprobe` duration in seconds.  Returns `(segments, total_duration,
split_count)`; the split counter counts, as the source loop does, the
emitted pieces whose end `nxt` lies strictly before the segment end. -/
def detect_speech_segments (speechTs : List (ℕ × ℕ)) (totalDur : ℚ) :
    List SpeechSeg × ℚ × ℕ :=
  if totalDur ≤ 1/20 then ([], 0, 0) else
  let pairs := speechTs.filterMap (fun p =>
    let s := max 0 ((p.1 : ℚ) / 16000)
    let e := min totalDur ((p.2 : ℚ) / 16000)
    if s < e then some (s, e) else none)
  let pairs := if pairs = [] then [((0 : ℚ), totalDur)] else pairs
  let filtered := (pairs.filter (fun p => MIN_SEGMENT_SECONDS ≤ p.2 - p.1)).map
    (fun p => SpeechSeg.mk (max 0 p.1) (min totalDur p.2))
  let filtered := if filtered = [] then [SpeechSeg.mk 0 totalDur] else filtered
  let out := (filtered.map (fun seg =>
    if seg.dur ≤ MAX_SEGMENT_SECONDS then [seg]
    else splitLongGo (splitFuel seg) seg.stop seg.start)).flatten
  let splits := (filtered.map (fun seg =>
    if seg.dur ≤ MAX_SEGMENT_SECONDS then 0
    else (splitLongGo (splitFuel seg) seg.stop seg.start).countP
      (fun p => decide (p.stop < seg.stop)))).sum
  (out, totalDur, splits)

/-- Stable insertion for sorting segments by `(start, end)`. -/
def insSortedSeg (a : SpeechSeg) : List SpeechSeg → List SpeechSeg
  | [] => [a]
  | b :: rest =>
    if (b.start < a.start ∨ (b.start = a.start ∧ b.stop ≤ a.stop)) then
      b :: insSortedSeg a rest
    else a :: b :: rest

/-- Stable sort by `(start, end)`, as `sorted(segments, key=...)` in
`optimize_segments_for_transcription`. -/
def sortSegs : List SpeechSeg → List SpeechSeg
  | [] => []
  | a :: rest => insSortedSeg a (sortSegs rest)

/-- The merge loop of `optimize_segments_for_transcription`
(src/app.py:857-878); `acc` holds accepted segments in reverse so that the
source's `out[-1]` update is the head. -/
def optimizeGo (minDur mergeGap maxDur : ℚ) (acc : List SpeechSeg)
    (merged dropped : ℕ) : List SpeechSeg → List SpeechSeg × ℕ × ℕ
  | [] => (acc.reverse, merged, dropped)
  | seg :: rest =>
    if minDur ≤ seg.dur then optimizeGo minDur mergeGap maxDur (seg :: acc) merged dropped rest
    else
      match acc with
      | prev :: accT =>
        if max 0 (seg.start - prev.stop) ≤ mergeGap ∧ seg.stop - prev.start ≤ maxDur then
          optimizeGo minDur mergeGap maxDur
            (⟨prev.start, max prev.stop seg.stop⟩ :: accT) (merged + 1) dropped rest
        else if max (11/50) (minDur * (3/5)) ≤ seg.dur then
          optimizeGo minDur mergeGap maxDur (seg :: acc) merged dropped rest
        else optimizeGo minDur mergeGap maxDur acc merged (dropped + 1) rest
      | [] =>
        if max (11/50) (minDur * (3/5)) ≤ seg.dur then
          optimizeGo minDur mergeGap maxDur (seg :: acc) merged dropped rest
        else optimizeGo minDur mergeGap maxDur acc merged (dropped + 1) rest

/-- Shallow embedding of `optimize_segments_for_transcription`
(src/app.py:835-883). -/
def optimize_segments_for_transcription (segments : List SpeechSeg)
    (minTranscribeSeconds mergeGapSeconds maxSegmentSeconds : ℚ) :
    List SpeechSeg × ℕ × ℕ :=
  if segments = [] then ([], 0, 0) else
  let minDur := qclamp minTranscribeSeconds (1/5) 2
  let mergeGap := qclamp mergeGapSeconds 0 1
  let maxDur := max 2 maxSegmentSeconds
  let src := sortSegs segments
  let r := optimizeGo minDur mergeGap maxDur [] 0 0 src
  if r.1 = [] then (src.take 1, r.2.1, r.2.2) else (r.1, r.2.1, r.2.2)

/-- Default `LOG_MAX_LINES` (1000; env override clamped to [100, 10000]). -/
def LOG_MAX_LINES : ℕ := 1000

/-- One log line `{seq, ts, msg}` of a job record. -/
structure LogEntry where
  seq : ℕ
  tsStr : List Char
  msg : List Char
deriving DecidableEq, Repr

/-- The immutable `payload` mapping captured at `init_job`
(src/app.py:1661-1667). -/
structure JobPayload where
  file_path : List Char
  language : List Char
  model : List Char
  original_name : List Char
deriving DecidableEq, Repr

/-- The job record of src/app.py:511-530.  Wall-clock values are rationals;
the `ts()` reads of the source become explicit time parameters of the
mutation operations. -/
structure Job where
  id : List Char
  status : List Char
  progress : ℚ
  created_at : ℚ
  updated_at : ℚ
  started_at : Option ℚ
  finished_at : Option ℚ
  last_heartbeat : ℚ
  payload : JobPayload
  logs : List LogEntry
  log_seq : ℕ
  error : Option (List Char)
  result_path : Option (List Char)
  download_name : Option (List Char)
  downloaded_at : Option ℚ
  cancel_requested : Bool
deriving DecidableEq, Repr

/-- Shallow embedding of `init_job` (src/app.py:511-534). -/
def init_job (jobId : List Char) (payload : JobPayload) (now : ℚ) : Job :=
  { id := jobId
    status := "queued".data
    progress := 0
    created_at := now
    updated_at := now
    started_at := none
    finished_at := none
    last_heartbeat := now
    payload := payload
    logs := []
    log_seq := 0
    error := none
    result_path := none
    download_name := none
    downloaded_at := none
    cancel_requested := false }

/-- Shallow embedding of `touch_heartbeat` (src/app.py:564-571). -/
def touch_heartbeat (j : Job) (now : ℚ) : Job :=
  { j with last_heartbeat := now, updated_at := now }

/-- Shallow embedding of `append_log` (src/app.py:574-588): carriage returns
and newlines become spaces, the stripped message is appended with the next
`log_seq` (empty messages are dropped), logs are capped at `LOG_MAX_LINES`,
and `updated_at`/`last_heartbeat` are refreshed. -/
def append_log (j : Job) (now : ℚ) (tsStr : List Char) (message : List Char) : Job :=
  let msg := pyStrip (message.map (fun c => if c = '\r' ∨ c = '\n' then ' ' else c))
  if msg = [] then j else
  let seq := j.log_seq + 1
  let logs := j.logs ++ [⟨seq, tsStr, msg⟩]
  let logs := if LOG_MAX_LINES < logs.length then logs.drop (logs.length - LOG_MAX_LINES) else logs
  { j with log_seq := seq, logs := logs, updated_at := now, last_heartbeat := now }

/-- Shallow embedding of `set_status` (src/app.py:591-598) composed with the
`update_job` it calls: the patch plus `updated_at` refresh. -/
def set_status (j : Job) (now : ℚ) (status : List Char) : Job :=
  let j := { j with status := status, updated_at := now, last_heartbeat := now }
  let j := if status = "running".data then { j with started_at := some now } else j
  let j := if status = "done".data ∨ status = "error".data ∨ status = "cancelled".data then
      { j with finished_at := some now } else j
  j

/-- Shallow embedding of `set_progress` (src/app.py:601-603). -/
def set_progress (j : Job) (now : ℚ) (p : ℚ) : Job :=
  { j with progress := qclamp p 0 100, updated_at := now }

/-- Shallow embedding of `set_error` (src/app.py:606-607): the stored error
string is truncated to 4000 characters. -/
def set_error (j : Job) (now : ℚ) (msg : List Char) : Job :=
  { j with status := "error".data, error := some (msg.take 4000),
           finished_at := some now, last_heartbeat := now, updated_at := now }

/-- Shallow embedding of `set_result` (src/app.py:610-620). -/
def set_result (j : Job) (now : ℚ) (path dlName : List Char) : Job :=
  { j with result_path := some path, download_name := some dlName,
           status := "done".data, progress := 100, finished_at := some now,
           last_heartbeat := now, error := none, updated_at := now }

/-- Shallow embedding of `mark_downloaded` (src/app.py:623-624). -/
def mark_downloaded (j : Job) (now : ℚ) : Job :=
  { j with downloaded_at := some now, updated_at := now }

/-- Terminal statuses `{done, error, cancelled}`. -/
def isTerminalStatus (s : List Char) : Bool :=
  s = "done".data ∨ s = "error".data ∨ s = "cancelled".data

/-- The truncated upstream body embedded in `DG_ERR_...`/`HF_ERR_...`
messages: `(resp.text or "")[:180].replace("\n", " ")`
(src/app.py:1150, 1189). -/
def upstreamBodyTrunc (body : List Char) : List Char :=
  (body.take 180).map (fun c => if c = '\n' then ' ' else c)

/-- The `FFMPEG_ERR` message of `transcribe_task` (src/app.py:1259-1262):
whitespace runs collapse to single spaces, then truncation to
180 characters. -/
def ffmpegErrMsg (raw : List Char) : List Char :=
  "FFMPEG_ERR: ".data ++ (replaceRunWith isPyWs ' ' raw).take 180

/-- The `EXC:` message of `transcribe_task` (src/app.py:1263-1264). -/
def excErrMsg (raw : List Char) : List Char :=
  "EXC: ".data ++ raw.take 180

/-- The job-failure log line of `process_job` (src/app.py:1456):
the f-string embeds `str(e)` untruncated. -/
def job_fail_log_message (err : List Char) : List Char :=
  "❌ 任务失败: ".data ++ err

/-- An abstract upstream HTTP response: status code, whether the body parses
as the expected JSON shape, and the transcript text found at the provider's
JSON path. -/
structure ProviderResp where
  status : ℕ
  parseOk : Bool
  transcript : List Char
  body : List Char := []
deriving Repr

/-- Outcome quadruple `(ok, text, error, code)` of the transcribe helpers. -/
structure TOutcome where
  ok : Bool
  text : List Char
  error : List Char
  code : ℕ
deriving DecidableEq, Repr

/-- Shallow embedding of the response handling of `transcribe_with_deepgram`
(src/app.py:1106-1166); parameter construction and the HTTP POST are
abstracted into `resp`, `keyPresent` models `Config.DEEPGRAM_API_KEY`. -/
def transcribe_with_deepgram (keyPresent : Bool) (resp : ProviderResp) : TOutcome :=
  if ¬keyPresent then ⟨false, [], "DEEPGRAM_API_KEY missing".data, 0⟩
  else if resp.status ≠ 200 then
    ⟨false, [], "DG_ERR_".data ++ natChars resp.status ++ ": ".data ++
      upstreamBodyTrunc resp.body, resp.status⟩
  else if ¬resp.parseOk then ⟨false, [], "DG_JSON_PARSE_ERR".data, resp.status⟩
  else
    let txt := pyStrip resp.transcript
    if txt = [] then ⟨false, [], "EMPTY_TRANSCRIPT".data, resp.status⟩
    else ⟨true, txt, [], resp.status⟩

/-- Shallow embedding of the response handling of `transcribe_with_hf`
(src/app.py:1169-1199). -/
def transcribe_with_hf (keyPresent : Bool) (resp : ProviderResp) : TOutcome :=
  if ¬keyPresent then ⟨false, [], "HF_TOKEN missing".data, 0⟩
  else if resp.status ≠ 200 then
    ⟨false, [], "HF_ERR_".data ++ natChars resp.status ++ ": ".data ++
      upstreamBodyTrunc resp.body, resp.status⟩
  else if ¬resp.parseOk then ⟨false, [], "HF_JSON_PARSE_ERR".data, resp.status⟩
  else
    let txt := pyStrip resp.transcript
    if txt = [] then ⟨false, [], "HF_EMPTY_TRANSCRIPT".data, resp.status⟩
    else ⟨true, txt, [], resp.status⟩

/-- Shallow embedding of `_empty_retry_window` (src/app.py:1213-1217). -/
def empty_retry_window (seg : SpeechSeg) : ℚ × ℚ :=
  let pad : ℚ := if seg.dur < 6/5 then 11/50 else if seg.dur < 3 then 7/20 else 1/2
  let retryStart := max 0 (seg.start - pad)
  (retryStart, max (retryStart + 1/50) (seg.stop + pad))

/-- One provider call issued by `transcribe_task`: which provider, the cut
window of the segment WAV sent, and the `language` argument passed
(irrelevant for the HF provider, which takes no language). -/
structure ProviderCall where
  isDeepgram : Bool
  winStart : ℚ
  winStop : ℚ
  language : List Char
deriving DecidableEq, Repr

/-- The environment of one `transcribe_task` run: cancellation flag, key
presence, and the provider responses (`dgResp n` answers the n-th Deepgram
call).  Segment extraction by ffmpeg is modelled as always succeeding; its
failure path raises `CalledProcessError` and is covered by `ffmpegErrMsg`. -/
structure TranscribeEnv where
  cancelRequested : Bool
  dgKey : Bool
  hfKey : Bool
  dgResp : ℕ → ProviderResp
  hfResp : ProviderResp

/-- Shallow embedding of `transcribe_task` (src/app.py:1220-1266): provider
selection by the `kotoba` substring, the single empty-transcript retry with
the widened window and the `auto` language fallback, and post-normalization
classification.  Returns the `SegmentResult` and the list of provider calls
issued. -/
def transcribe_task (env : TranscribeEnv) (idx : ℕ) (seg : SpeechSeg)
    (model language : List Char) : SegmentResult × List ProviderCall :=
  if env.cancelRequested then
    (⟨false, idx, seg.start, seg.stop, [], some "CANCELLED".data, 0⟩, [])
  else if seg.dur < 1/100 then
    (⟨false, idx, seg.start, seg.stop, [], some "INVALID_SEGMENT_DURATION".data, 0⟩, [])
  else
    let outcomeCalls : TOutcome × List ProviderCall :=
      if pyContains "kotoba".data model then
        (transcribe_with_hf env.hfKey env.hfResp,
         [⟨false, seg.start, seg.stop, []⟩])
      else
        let o1 := transcribe_with_deepgram env.dgKey (env.dgResp 0)
        if ¬o1.ok ∧ o1.error = "EMPTY_TRANSCRIPT".data then
          let w := empty_retry_window seg
          let retryLang := if language ≠ "auto".data then "auto".data else language
          let o2 := transcribe_with_deepgram env.dgKey (env.dgResp 1)
          (o2, [⟨true, seg.start, seg.stop, language⟩, ⟨true, w.1, w.2, retryLang⟩])
        else (o1, [⟨true, seg.start, seg.stop, language⟩])
    let o := outcomeCalls.1
    if o.ok then
      let txt := normalize_transcript_text o.text language model
      if txt = [] then
        (⟨false, idx, seg.start, seg.stop, [], some "EMPTY_AFTER_NORMALIZE".data, o.code⟩,
         outcomeCalls.2)
      else (⟨true, idx, seg.start, seg.stop, txt, none, o.code⟩, outcomeCalls.2)
    else
      (⟨false, idx, seg.start, seg.stop, [],
        some (if o.error = [] then "TRANSCRIBE_FAIL".data else o.error), o.code⟩,
       outcomeCalls.2)

/-- How the `try` block of `process_job` (src/app.py:1337-1456) exits; every
alternative reaches the `finally` block. -/
inductive RunOutcome
  | finished
  | raised
  | cancelledMid
deriving DecidableEq, Repr

/-- The environment of one `process_job` invocation, reduced to the branch
conditions of its control flow. -/
structure ProcEnv where
  jobFound : Bool
  leaseFree : Bool
  fileExists : Bool
  cancelBeforeRun : Bool
  runOutcome : RunOutcome
deriving DecidableEq, Repr

/-- The observable cleanup effects of one `process_job` invocation. -/
structure ProcEffects where
  leaseAcquired : Bool
  leaseReleased : Bool
  markedDirty : Bool
deriving DecidableEq, Repr

/-- Shallow embedding of the control flow of `process_job`
(src/app.py:1312-1462) restricted to lease and dirty-marking effects.
`acquire_job_lease` succeeds exactly when the lease is free; the returns at
src/app.py:1327-1335 (missing input file; cancellation observed before the
run) precede the `try` statement at line 1337, so only the remaining paths
execute the `finally` block (line 1458) that releases the lease.  Dirty
marking on the two early paths still happens through the `update_job` calls
inside `set_error`/`set_status`/`append_log`. -/
def process_job_effects (env : ProcEnv) : ProcEffects :=
  if ¬env.jobFound then ⟨false, false, false⟩
  else if ¬env.leaseFree then ⟨false, false, true⟩
  else if ¬env.fileExists then ⟨true, false, true⟩
  else if env.cancelBeforeRun then ⟨true, false, true⟩
  else
    match env.runOutcome with
    | _ => ⟨true, true, true⟩

/-- Chain predicate on cue lists with a threaded lower bound: every cue
starts no earlier than `prevEnd`, ends strictly after its start, and bounds
the next cue. -/
def cueChainOk (prevEnd : ℚ) : List Cue → Bool
  | [] => true
  | c :: rest =>
    (decide (prevEnd ≤ c.start) && decide (c.start < c.stop)) && cueChainOk c.stop rest

/-- The cue invariant exactly as claim C4 states it: consecutive cues do not
overlap and every cue lasts at least 0.18 seconds. -/
def cuesClaimC4 : List Cue → Bool
  | [] => true
  | [c] => decide (c.start + 9/50 ≤ c.stop)
  | c :: d :: rest =>
    (decide (c.start + 9/50 ≤ c.stop) && decide (c.stop ≤ d.start)) &&
      cuesClaimC4 (d :: rest)

/-- The amended cue invariant: consecutive cues do not overlap and every cue
ends strictly after it starts. -/
def cuesAmendedC4 : List Cue → Bool
  | [] => true
  | [c] => decide (c.start < c.stop)
  | c :: d :: rest =>
    (decide (c.start < c.stop) && decide (c.stop ≤ d.start)) &&
      cuesAmendedC4 (d :: rest)

/-- True when the last cue of the list ends at `max(its start + 0.18,
segEnd)`, the snap applied by `allocate_line_times`; false on the empty
list. -/
def lastSnapOk (segEnd : ℚ) : List Cue → Bool
  | [] => false
  | [c] => decide (c.stop = max (c.start + 9/50) segEnd)
  | _ :: c2 :: rest => lastSnapOk segEnd (c2 :: rest)

/-! Theorems. -/

/-- Unfolding lemma: `splitLongGo` stops when at most 0.05s remains. -/
theorem splitLongGo_nil (fuel : ℕ) (e cur : ℚ) (h : ¬ cur < e - 1/20) :
    splitLongGo fuel e cur = [] := by
  cases fuel with
  | zero => rfl
  | succ n => simp only [splitLongGo, if_neg h]

/-- Unfolding lemma: one `splitLongGo` iteration emits a piece of at most
`MAX_SEGMENT_SECONDS`. -/
theorem splitLongGo_cons (fuel : ℕ) (e cur : ℚ) (h : cur < e - 1/20) :
    splitLongGo (fuel + 1) e cur =
      ⟨cur, min (cur + MAX_SEGMENT_SECONDS) e⟩ ::
        splitLongGo fuel e (min (cur + MAX_SEGMENT_SECONDS) e) := by
  simp only [splitLongGo, if_pos h]

/-- Evaluation of the force-split of a 15.22-second segment: a 15-second
piece and a 0.22-second tail. -/
theorem splitLong_eval_1522 : splitLongGo ((⌈(761 : ℚ)/50⌉).toNat + 1) (761/50) 0 =
    [⟨0, 15⟩, ⟨15, 761/50⟩] := by
  have hm1 : min ((0 : ℚ) + MAX_SEGMENT_SECONDS) (761/50) = 15 := by
    simp [MAX_SEGMENT_SECONDS]
    norm_num [min_def]
  have hm2 : min ((15 : ℚ) + MAX_SEGMENT_SECONDS) (761/50) = 761/50 := by
    simp [MAX_SEGMENT_SECONDS]
    norm_num [min_def]
  have hceil : (⌈(761 : ℚ)/50⌉).toNat = 15 + 1 := by
    rw [show (⌈(761 : ℚ)/50⌉) = 16 from by rw [Int.ceil_eq_iff]; norm_num]
    rfl
  rw [splitLongGo_cons _ _ _ (by norm_num), hm1, hceil,
      splitLongGo_cons _ _ _ (by norm_num), hm2,
      splitLongGo_nil _ _ _ (by norm_num)]

/-- C1: the claim states that whenever `process_job` acquires the lease
`locks/<id>.lock`, the lease file has been deleted and the job marked dirty
on every return path, including the input-file-missing path and the pre-run
cancellation path.  The code violates this: those two paths return before
the `try`/`finally` of src/app.py:1337/1458, so the acquired lease is never
released there (dirty marking does happen); all paths that enter the `try`
block do release it. -/
theorem process_job_leaks_lease_on_early_returns :
    (process_job_effects ⟨true, true, false, false, .finished⟩).leaseAcquired = true ∧
    (process_job_effects ⟨true, true, false, false, .finished⟩).leaseReleased = false ∧
    (process_job_effects ⟨true, true, false, false, .finished⟩).markedDirty = true ∧
    (process_job_effects ⟨true, true, true, true, .finished⟩).leaseAcquired = true ∧
    (process_job_effects ⟨true, true, true, true, .finished⟩).leaseReleased = false ∧
    (process_job_effects ⟨true, true, true, true, .finished⟩).markedDirty = true ∧
    (∀ oc : RunOutcome,
      (process_job_effects ⟨true, true, true, false, oc⟩).leaseReleased = true ∧
      (process_job_effects ⟨true, true, true, false, oc⟩).markedDirty = true) :=
  ⟨rfl, rfl, rfl, rfl, rfl, rfl, fun _ => ⟨rfl, rfl⟩⟩

/-- C6: the claim states `normalize_transcript_text` is idempotent for every
input string, language and model.  It is not: `html.unescape` resolves one
level of escaping per application, so `"&amp;amp;"` normalizes to `"&amp;"`
and normalizing again yields `"&"`. -/
theorem normalize_transcript_text_not_idempotent :
    normalize_transcript_text "&amp;amp;".data "auto".data "".data = "&amp;".data ∧
    normalize_transcript_text
        (normalize_transcript_text "&amp;amp;".data "auto".data "".data)
        "auto".data "".data = "&".data ∧
    normalize_transcript_text
        (normalize_transcript_text "&amp;amp;".data "auto".data "".data)
        "auto".data "".data ≠
      normalize_transcript_text "&amp;amp;".data "auto".data "".data := by
  refine ⟨by decide, by decide, by decide⟩

/-- C9 counterexample: the claim quantifies over every real `x`, but for
`x = -1` the round trip fails: `srt_ts` clamps negative input to zero, so
parsing yields 0 while `round(x*1000)/1000 = -1`. -/
theorem srt_ts_roundtrip_fails_on_negative :
    parse_srt_ts (srt_ts (-1)) = some 0 ∧
    ((pyRound ((-1) * 1000) : ℚ) / 1000 = -1) ∧
    parse_srt_ts (srt_ts (-1)) ≠ some ((pyRound ((-1) * 1000) : ℚ) / 1000) := by
  have h1 : srt_ts (-1) = "00:00:00,000".data := by
    simp +decide [srt_ts, pyRound, pad2, pad3, natChars, natDigitsLE, natDigitsLEGo,
      digitChar10]
  have h2 : parse_srt_ts "00:00:00,000".data = some 0 := by
    simp +decide [parse_srt_ts, parseDecimal, parseNatDigits, digitVal, isDigitChar]
  have h3 : (pyRound ((-1) * 1000) : ℚ) / 1000 = -1 := by
    have : pyRound ((-1) * 1000) = -1000 := by
      norm_num [pyRound]
    rw [this]; norm_num
  refine ⟨h1 ▸ h2, h3, ?_⟩
  rw [h1, h2, h3]
  norm_num

/-- C4 counterexample: a single ok result spanning `[0, 0.1]` with a
one-line text produces the cue `(0, 0.1)`: the final sweep of `build_srt`
only extends a cue when its end does not exceed its start, so this cue lasts
0.1s, violating the claimed 0.18-second minimum. -/
theorem build_srt_cues_violates_min_duration :
    build_srt_cues [⟨true, 0, 0, 1/10, "a".data, none, 0⟩] "en".data "".data =
      [⟨0, 1/10, "a".data⟩] ∧
    cuesClaimC4 [Cue.mk 0 (1/10) "a".data] = false := by
  constructor
  · simp +decide [build_srt_cues, sortResults, insSorted, split_text_for_srt,
      clamped_budget, char_budget, split_by_punctuation, splitAfterPunct,
      splitAfterPunctGo, packGo, flushCur, pyStrip, mergeShortGo,
      allocate_line_times, sweepCues, compactCues, compactCuesGo]
  · simp +decide [cuesClaimC4]
    norm_num

/-- C7 counterexample: for segment `[0, 0.4]` and two lines, the overlap
correction pushes the second line's end to 0.48, so the last returned line
does not end at `e = 0.4`; and for the squeezed single-line case
`[0, 0.1]` the returned line lasts only 0.1s, below the claimed 0.18s. -/
theorem allocate_line_times_claim_fails :
    allocate_line_times 0 (2/5) ["ab".data, "cd".data] =
      [⟨0, 3/10, "ab".data⟩, ⟨3/10, 12/25, "cd".data⟩] ∧
    ¬((12 : ℚ)/25 = 2/5) ∧
    allocate_line_times 0 (1/10) ["a".data] = [⟨0, 1/10, "a".data⟩] ∧
    ¬((0 : ℚ) + 9/50 ≤ 1/10) := by
  refine ⟨?_, by norm_num, rfl, by norm_num⟩
  simp +decide [allocate_line_times, allocGo, totalWeight, lineWeight,
    fixOverlapGo, snapLast]
  norm_num

/-- C3 counterexample: with the legal option `min_transcribe_segment_seconds
= 0.2`, the force-split of a 15.22s VAD segment leaves a 0.22s tail that
survives `optimize_segments_for_transcription`, so the returned list (two
segments, hence not the sole full-duration fallback) contains a segment
shorter than `MIN_SEGMENT_SECONDS = 0.25`. -/
theorem segmentation_min_duration_fails :
    (optimize_segments_for_transcription
        (detect_speech_segments [(0, 243520)] (761/50)).1 (1/5) (1/5)
        MAX_SEGMENT_SECONDS).1 =
      [⟨0, 15⟩, ⟨15, 761/50⟩] ∧
    (SpeechSeg.mk 15 (761/50)).dur < MIN_SEGMENT_SECONDS ∧
    2 ≤ ((optimize_segments_for_transcription
        (detect_speech_segments [(0, 243520)] (761/50)).1 (1/5) (1/5)
        MAX_SEGMENT_SECONDS).1).length := by
  have hdet : (detect_speech_segments [(0, 243520)] (761/50)).1 =
      [⟨0, 15⟩, ⟨15, 761/50⟩] := by
    norm_num [detect_speech_segments, splitFuel, SpeechSeg.dur, MIN_SEGMENT_SECONDS,
      MAX_SEGMENT_SECONDS, splitLong_eval_1522, List.filterMap_cons, List.filter_cons,
      decide_eq_true_eq]
  have hopt : (optimize_segments_for_transcription
      ([⟨0, 15⟩, ⟨15, 761/50⟩] : List SpeechSeg) (1/5) (1/5)
      MAX_SEGMENT_SECONDS).1 = [⟨0, 15⟩, ⟨15, 761/50⟩] := by
    norm_num [optimize_segments_for_transcription, qclamp, sortSegs, insSortedSeg,
      optimizeGo, SpeechSeg.dur, MAX_SEGMENT_SECONDS, decide_eq_true_eq]
    simp
  refine ⟨by rw [hdet]; exact hopt, ?_, by rw [hdet, hopt]; simp⟩
  simp [SpeechSeg.dur, MIN_SEGMENT_SECONDS]
  norm_num

/-- C2 counterexample: right after `set_result` puts a job in status `done`,
`process_job` appends the completion log line (src/app.py:1451); on the
terminal record this changes `log_seq`, `logs`, `updated_at` and
`last_heartbeat`, contradicting the claim that no field other than
`downloaded_at` is subsequently mutated. -/
theorem terminal_job_mutated_after_done :
    (set_result (init_job "j".data ⟨"f".data, "en".data, "nova-2-general".data,
        "a.mp4".data⟩ 100) 200 "out.srt".data "a.srt".data).status = "done".data ∧
    (append_log (set_result (init_job "j".data ⟨"f".data, "en".data,
        "nova-2-general".data, "a.mp4".data⟩ 100) 200 "out.srt".data "a.srt".data)
        201 "12:00:00".data "✅ 任务完成".data).log_seq ≠
      (set_result (init_job "j".data ⟨"f".data, "en".data, "nova-2-general".data,
        "a.mp4".data⟩ 100) 200 "out.srt".data "a.srt".data).log_seq ∧
    (append_log (set_result (init_job "j".data ⟨"f".data, "en".data,
        "nova-2-general".data, "a.mp4".data⟩ 100) 200 "out.srt".data "a.srt".data)
        201 "12:00:00".data "✅ 任务完成".data).updated_at ≠
      (set_result (init_job "j".data ⟨"f".data, "en".data, "nova-2-general".data,
        "a.mp4".data⟩ 100) 200 "out.srt".data "a.srt".data).updated_at := by
  refine ⟨rfl, ?_, ?_⟩
  · simp +decide [append_log, set_result, init_job, LOG_MAX_LINES]
  · simp +decide [append_log, set_result, init_job, LOG_MAX_LINES]

/-- C2 (amended): once a job record is terminal, the operations the system
still performs on it (`append_log` for the post-transition log lines,
`touch_heartbeat`, and `mark_downloaded` from the download endpoint) mutate
only `logs`, `log_seq`, `updated_at`, `last_heartbeat` and `downloaded_at`;
`status`, `progress`, `payload`, `error`, `result_path`, `download_name`,
`created_at`, `started_at`, `finished_at` and `cancel_requested` stay
unchanged. -/
theorem terminal_job_frame (j : Job) (_h : isTerminalStatus j.status = true)
    (now : ℚ) (tsStr msg : List Char) :
    ((append_log j now tsStr msg).status = j.status ∧
     (append_log j now tsStr msg).progress = j.progress ∧
     (append_log j now tsStr msg).payload = j.payload ∧
     (append_log j now tsStr msg).error = j.error ∧
     (append_log j now tsStr msg).result_path = j.result_path ∧
     (append_log j now tsStr msg).download_name = j.download_name ∧
     (append_log j now tsStr msg).created_at = j.created_at ∧
     (append_log j now tsStr msg).started_at = j.started_at ∧
     (append_log j now tsStr msg).finished_at = j.finished_at ∧
     (append_log j now tsStr msg).downloaded_at = j.downloaded_at ∧
     (append_log j now tsStr msg).cancel_requested = j.cancel_requested) ∧
    ((touch_heartbeat j now).status = j.status ∧
     (touch_heartbeat j now).progress = j.progress ∧
     (touch_heartbeat j now).payload = j.payload ∧
     (touch_heartbeat j now).error = j.error ∧
     (touch_heartbeat j now).result_path = j.result_path ∧
     (touch_heartbeat j now).download_name = j.download_name ∧
     (touch_heartbeat j now).created_at = j.created_at ∧
     (touch_heartbeat j now).started_at = j.started_at ∧
     (touch_heartbeat j now).finished_at = j.finished_at ∧
     (touch_heartbeat j now).logs = j.logs ∧
     (touch_heartbeat j now).log_seq = j.log_seq ∧
     (touch_heartbeat j now).downloaded_at = j.downloaded_at ∧
     (touch_heartbeat j now).cancel_requested = j.cancel_requested) ∧
    ((mark_downloaded j now).status = j.status ∧
     (mark_downloaded j now).progress = j.progress ∧
     (mark_downloaded j now).payload = j.payload ∧
     (mark_downloaded j now).error = j.error ∧
     (mark_downloaded j now).result_path = j.result_path ∧
     (mark_downloaded j now).download_name = j.download_name ∧
     (mark_downloaded j now).created_at = j.created_at ∧
     (mark_downloaded j now).started_at = j.started_at ∧
     (mark_downloaded j now).finished_at = j.finished_at ∧
     (mark_downloaded j now).logs = j.logs ∧
     (mark_downloaded j now).log_seq = j.log_seq ∧
     (mark_downloaded j now).cancel_requested = j.cancel_requested) := by
  refine ⟨?_, ?_, ?_⟩
  · simp only [append_log]
    split <;> simp
  · simp [touch_heartbeat]
  · simp [mark_downloaded]

/-- Witness for `terminal_job_frame` at a concrete done job. -/
theorem terminal_job_frame_witness :
    isTerminalStatus (set_result (init_job "j".data ⟨"f".data, "en".data,
        "nova-2-general".data, "a.mp4".data⟩ 100) 200 "out.srt".data
        "a.srt".data).status = true ∧
    (append_log (set_result (init_job "j".data ⟨"f".data, "en".data,
        "nova-2-general".data, "a.mp4".data⟩ 100) 200 "out.srt".data "a.srt".data)
        201 "12:00:00".data "ok".data).status =
      (set_result (init_job "j".data ⟨"f".data, "en".data, "nova-2-general".data,
        "a.mp4".data⟩ 100) 200 "out.srt".data "a.srt".data).status :=
  ⟨by decide,
   (terminal_job_frame _ (by decide) 201 "12:00:00".data "ok".data).1.1⟩

/-- C8 (amended): the error string stored on the record by `set_error` is
truncated to at most 4000 characters, and the error text embedded in
per-segment messages is truncated at creation: upstream response bodies in
`DG_ERR_`/`HF_ERR_` messages to 180 characters, ffmpeg stderr in
`FFMPEG_ERR` and exception text in `EXC:` to 180 characters.  The job-level
failure log line, however, embeds the exception text untruncated (see the
counterexample). -/
theorem error_truncation_bounds :
    (∀ (j : Job) (now : ℚ) (msg : List Char),
      ((set_error j now msg).error.getD []).length ≤ 4000) ∧
    (∀ body : List Char, (upstreamBodyTrunc body).length ≤ 180) ∧
    (∀ raw : List Char, (ffmpegErrMsg raw).length ≤ 12 + 180) ∧
    (∀ raw : List Char, (excErrMsg raw).length ≤ 5 + 180) := by
  refine ⟨fun j now msg => ?_, fun body => ?_, fun raw => ?_, fun raw => ?_⟩
  · simp only [set_error, Option.getD_some]
    exact List.length_take_le 4000 msg
  · simp only [upstreamBodyTrunc, List.length_map]
    exact List.length_take_le 180 body
  · have h1 := List.length_take_le 180 (replaceRunWith isPyWs ' ' raw)
    simp [ffmpegErrMsg]
  · have h1 := List.length_take_le 180 raw
    simp [excErrMsg]

set_option maxRecDepth 8192 in
/-- C8 counterexample: the job-failure log line of src/app.py:1456 embeds
`str(e)` with no truncation; here an error string of 181 characters appears
verbatim (as a suffix) in the log message stored by `append_log` on the
errored job, exceeding the claimed 180-character bound. -/
theorem job_failure_log_embeds_untruncated_error :
    180 < (List.replicate 181 'x').length ∧
    List.isSuffixOf (List.replicate 181 'x')
      (job_fail_log_message (List.replicate 181 'x')) = true ∧
    (append_log (set_error (init_job "j".data ⟨"f".data, "en".data,
        "nova-2-general".data, "a.mp4".data⟩ 100) 200 (List.replicate 181 'x'))
        201 "12:00:00".data
        (job_fail_log_message (List.replicate 181 'x'))).logs =
      [⟨1, "12:00:00".data, job_fail_log_message (List.replicate 181 'x')⟩] := by
  refine ⟨by decide, by decide, ?_⟩
  simp +decide [append_log, set_error, init_job, LOG_MAX_LINES,
    job_fail_log_message, pyStrip]

/-- C5: for a non-kotoba (Deepgram) model, when the first provider call
comes back HTTP 200 with an empty transcript, `transcribe_task` issues
exactly one retry: the segment is recut to the `_empty_retry_window`
window — a symmetric pad of 0.22s when the duration is below 1.2s, 0.35s
below 3.0s, 0.50s otherwise (clamped at zero and at a 0.02s minimum
width) — and the retry uses language `auto` whenever the original call used
a specific language.  For a kotoba model the HF provider is called exactly
once and no empty-transcript retry ever happens. -/
theorem transcribe_task_empty_retry_policy
    (env : TranscribeEnv) (idx : ℕ) (seg : SpeechSeg) (model language : List Char)
    (hc : env.cancelRequested = false) (hd : (1 : ℚ)/100 ≤ seg.dur)
    (hk : env.dgKey = true) :
    (pyContains "kotoba".data model = false →
      (env.dgResp 0).status = 200 → (env.dgResp 0).parseOk = true →
      pyStrip (env.dgResp 0).transcript = [] →
      (transcribe_task env idx seg model language).2 =
        [⟨true, seg.start, seg.stop, language⟩,
         ⟨true, (empty_retry_window seg).1, (empty_retry_window seg).2,
          if language ≠ "auto".data then "auto".data else language⟩] ∧
      empty_retry_window seg =
        (max 0 (seg.start -
            (if seg.dur < 6/5 then 11/50 else if seg.dur < 3 then 7/20 else 1/2)),
         max (max 0 (seg.start -
            (if seg.dur < 6/5 then 11/50 else if seg.dur < 3 then 7/20 else 1/2)) + 1/50)
           (seg.stop +
            (if seg.dur < 6/5 then 11/50 else if seg.dur < 3 then 7/20 else 1/2)))) ∧
    (pyContains "kotoba".data model = true →
      (transcribe_task env idx seg model language).2 =
        [⟨false, seg.start, seg.stop, []⟩]) := by
  have hnd : ¬ seg.dur < 1/100 := not_lt.mpr hd
  constructor
  · intro hkot h200 hparse hempty
    constructor
    · have ho1 : transcribe_with_deepgram env.dgKey (env.dgResp 0) =
          ⟨false, [], "EMPTY_TRANSCRIPT".data, 200⟩ := by
        rw [hk]
        simp [transcribe_with_deepgram, h200, hparse, hempty]
      simp only [transcribe_task, hc, Bool.false_eq_true, if_false, hnd, hkot, ho1]
      simp +decide
      split <;> (try split) <;> simp
    · rfl
  · intro hkot
    simp only [transcribe_task, hc, Bool.false_eq_true, if_false, hnd, hkot]
    try simp +decide
    split <;> (try split) <;> simp

/-- Witness for `transcribe_task_empty_retry_policy`: a concrete environment
whose first Deepgram answer is an empty 200, a 1-second segment, and both a
Deepgram and a kotoba model. -/
theorem transcribe_task_empty_retry_policy_witness :
    ((1 : ℚ)/100 ≤ (SpeechSeg.mk 0 1).dur) ∧
    ((transcribe_task ⟨false, true, true, fun _ => ⟨200, true, [], []⟩,
        ⟨200, true, "x".data, []⟩⟩ 0 ⟨0, 1⟩ "nova-2-general".data "en".data).2 =
      [⟨true, (0 : ℚ), (1 : ℚ), "en".data⟩,
       ⟨true, (empty_retry_window ⟨0, 1⟩).1, (empty_retry_window ⟨0, 1⟩).2,
        if "en".data ≠ "auto".data then "auto".data else "en".data⟩] ∧
      empty_retry_window ⟨0, 1⟩ =
        (max 0 ((0 : ℚ) -
            (if (SpeechSeg.mk 0 1).dur < 6/5 then 11/50
             else if (SpeechSeg.mk 0 1).dur < 3 then 7/20 else 1/2)),
         max (max 0 ((0 : ℚ) -
            (if (SpeechSeg.mk 0 1).dur < 6/5 then 11/50
             else if (SpeechSeg.mk 0 1).dur < 3 then 7/20 else 1/2)) + 1/50)
           ((1 : ℚ) +
            (if (SpeechSeg.mk 0 1).dur < 6/5 then 11/50
             else if (SpeechSeg.mk 0 1).dur < 3 then 7/20 else 1/2)))) ∧
    ((transcribe_task ⟨false, true, true, fun _ => ⟨200, true, [], []⟩,
        ⟨200, true, "x".data, []⟩⟩ 0 ⟨0, 1⟩ "kotoba-tech/kotoba-whisper-v2.2".data
        "ja".data).2 = [⟨false, (0 : ℚ), (1 : ℚ), []⟩]) := by
  have hd : (1 : ℚ)/100 ≤ (SpeechSeg.mk 0 1).dur := by
    simp [SpeechSeg.dur]; norm_num
  refine ⟨hd, ?_, ?_⟩
  · exact (transcribe_task_empty_retry_policy _ 0 ⟨0, 1⟩ _ _ rfl hd rfl).1
      (by decide) rfl rfl rfl
  · exact (transcribe_task_empty_retry_policy _ 0 ⟨0, 1⟩ _ _ rfl hd rfl).2
      (by decide)

/-- The de-overlap sweep of `build_srt` always yields a chain: every cue
starts at or after the running `prevEnd` and ends strictly after its
start. -/
theorem sweepCues_chain (l : List Cue) (pe : ℚ) :
    cueChainOk pe (sweepCues pe l) = true := by
  induction l generalizing pe with
  | nil => rfl
  | cons c rest ih =>
    by_cases ht : pyStrip c.text = []
    · simpa [sweepCues, ht] using ih pe
    · simp only [sweepCues, ht, if_neg, cueChainOk]
      refine (by simp : ∀ a b c : Bool, a = true → b = true → c = true →
        ((a && b) && c) = true) _ _ _ ?_ ?_ ?_
      · simp [le_max_right]
      · by_cases hs : c.stop ≤ max c.start pe
        · simp only [hs, if_pos]
          norm_num
        · simp only [hs, if_neg, if_false]
          simp only [decide_eq_true_eq]
          exact lt_of_not_le hs
      · exact ih _

/-- The compaction pass preserves the cue chain invariant. -/
theorem compactCuesGo_chain (fuel : ℕ) (l : List Cue) (pe : ℚ)
    (h : cueChainOk pe l = true) : cueChainOk pe (compactCuesGo fuel l) = true := by
  induction fuel generalizing l pe with
  | zero => exact h
  | succ n ih =>
    match l with
    | [] => rfl
    | [c] => simpa [compactCuesGo, cueChainOk] using h
    | c :: d :: rest =>
      simp only [cueChainOk, Bool.and_eq_true, decide_eq_true_eq] at h
      obtain ⟨⟨hpe, hcs⟩, ⟨hcd, hds⟩, h3⟩ := h
      simp only [compactCuesGo]
      split
      · have hmax : max c.stop d.stop = d.stop :=
          max_eq_right (le_of_lt (lt_of_le_of_lt hcd hds))
        apply ih
        simp only [cueChainOk, Bool.and_eq_true, decide_eq_true_eq, hmax]
        exact ⟨⟨hpe, lt_of_lt_of_le hcs (hcd.trans (le_of_lt hds))⟩, h3⟩
      · simp only [cueChainOk, Bool.and_eq_true, decide_eq_true_eq]
        refine ⟨⟨hpe, hcs⟩, ih (d :: rest) c.stop ?_⟩
        simp only [cueChainOk, Bool.and_eq_true, decide_eq_true_eq]
        exact ⟨⟨hcd, hds⟩, h3⟩

/-- A chain (from any lower bound) satisfies the amended C4 invariant. -/
theorem cueChainOk_implies_amended (l : List Cue) (pe : ℚ)
    (h : cueChainOk pe l = true) : cuesAmendedC4 l = true := by
  induction l generalizing pe with
  | nil => rfl
  | cons c rest ih =>
    simp only [cueChainOk, Bool.and_eq_true, decide_eq_true_eq] at h
    obtain ⟨⟨_, hcs⟩, h2⟩ := h
    match rest, h2 with
    | [], _ => simpa [cuesAmendedC4] using hcs
    | d :: rest2, h2 =>
      have h2' := h2
      simp only [cueChainOk, Bool.and_eq_true, decide_eq_true_eq] at h2'
      obtain ⟨⟨hcd, _⟩, _⟩ := h2'
      simp only [cuesAmendedC4, Bool.and_eq_true, decide_eq_true_eq]
      exact ⟨⟨hcs, hcd⟩, ih _ h2⟩

/-- C4 (amended): every cue list produced by `build_srt` is a chain —
consecutive cues do not overlap (`cue[i+1].start ≥ cue[i].end`) and every
cue ends strictly after its start (the sweep extends a cue to `start + 0.2`
only when its end would not exceed its start); the claimed 0.18-second
minimum duration does not hold in general (see the counterexample). -/
theorem build_srt_cues_nonoverlapping (results : List SegmentResult)
    (language model : List Char) :
    cuesAmendedC4 (build_srt_cues results language model) = true := by
  unfold build_srt_cues compactCues
  exact cueChainOk_implies_amended _ 0
    (compactCuesGo_chain _ _ 0 (sweepCues_chain _ 0))

/-- Every cue produced by the overlap-correction pass lasts at least
0.18 seconds. -/
theorem fixOverlapGo_all (l : List Cue) (pe : ℚ) :
    (fixOverlapGo pe l).all (fun c => decide (c.start + 9/50 ≤ c.stop)) = true := by
  induction l generalizing pe with
  | nil => rfl
  | cons c rest ih =>
    simp only [fixOverlapGo, List.all_cons, Bool.and_eq_true, decide_eq_true_eq]
    exact ⟨le_max_right _ _, ih _⟩

/-- The final snap preserves the 0.18-second minimum. -/
theorem snapLast_all : ∀ (l : List Cue) (e : ℚ),
    l.all (fun c => decide (c.start + 9/50 ≤ c.stop)) = true →
    (snapLast e l).all (fun c => decide (c.start + 9/50 ≤ c.stop)) = true
  | [], _, _ => rfl
  | [c], e, _ => by
    simp only [snapLast, List.all_cons, List.all_nil, Bool.and_true,
      decide_eq_true_eq]
    exact le_max_left _ _
  | c :: c2 :: rest, e, h => by
    simp only [List.all_cons, Bool.and_eq_true] at h
    simp only [snapLast, List.all_cons, Bool.and_eq_true]
    exact ⟨h.1, snapLast_all (c2 :: rest) e (by
      simp only [List.all_cons, Bool.and_eq_true]
      exact h.2)⟩

/-- The snap of a non-empty list is non-empty (and starts with the given
head when there are at least two cues). -/
theorem snapLast_cons : ∀ (x : Cue) (xs : List Cue) (e : ℚ),
    ∃ y ys, snapLast e (x :: xs) = y :: ys
  | _, [], _ => ⟨_, _, rfl⟩
  | x, x2 :: t, e => ⟨x, snapLast e (x2 :: t), rfl⟩

/-- After the final snap, the last cue ends at `max(start + 0.18, e)`. -/
theorem snapLast_lastOk : ∀ (l : List Cue) (e : ℚ), l ≠ [] →
    lastSnapOk e (snapLast e l) = true
  | [], _, h => absurd rfl h
  | [c], e, _ => by simp [snapLast, lastSnapOk]
  | c :: c2 :: rest, e, _ => by
    obtain ⟨y, ys, hy⟩ := snapLast_cons c2 rest e
    have hrec := snapLast_lastOk (c2 :: rest) e (by simp)
    simp only [snapLast, hy, lastSnapOk]
    rw [hy] at hrec
    exact hrec

/-- The allocation loop never returns the empty list on a non-empty line
list. -/
theorem allocGo_ne_nil : ∀ (e d w t : ℚ) (l : List Char) (ls : List (List Char)),
    ∃ y ys, allocGo e d w t (l :: ls) = y :: ys
  | _, _, _, _, _, [] => ⟨_, _, rfl⟩
  | _, _, _, _, _, _ :: _ => ⟨_, _, rfl⟩

/-- C7 (amended): `allocate_line_times` distributes the segment by
line-length weight; with a single line the result is exactly `[(s, e,
line)]` (no 0.18s floor is applied there), and with at least two lines every
returned line lasts at least 0.18 seconds after the overlap correction while
the last line ends at `max(its start + 0.18, e)` — exactly `e` whenever the
corrected start leaves at least 0.18s, but later than `e` when the preceding
lines squeezed it (see the counterexample). -/
theorem allocate_line_times_bounds :
    (∀ (s e : ℚ) (l : List Char), allocate_line_times s e [l] = [⟨s, e, l⟩]) ∧
    (∀ (s e : ℚ) (lines : List (List Char)), 2 ≤ lines.length →
      ((allocate_line_times s e lines).all
        (fun c => decide (c.start + 9/50 ≤ c.stop))) = true ∧
      lastSnapOk e (allocate_line_times s e lines) = true) := by
  constructor
  · intro s e l
    rfl
  · intro s e lines hlen
    match lines, hlen with
    | a :: b :: t, _ =>
      have hres : allocate_line_times s e (a :: b :: t) =
          snapLast e (fixOverlapGo s
            (allocGo e (max (1/5) (e - s)) (totalWeight (a :: b :: t)) s
              (a :: b :: t))) := rfl
      rw [hres]
      constructor
      · exact snapLast_all _ _ (fixOverlapGo_all _ _)
      · obtain ⟨y, ys, hy⟩ := allocGo_ne_nil e (max (1/5) (e - s))
          (totalWeight (a :: b :: t)) s a (b :: t)
        rw [hy]
        exact snapLast_lastOk _ _ (by simp [fixOverlapGo])

/-- Witness for `allocate_line_times_bounds` at segment `[0, 0.4]` with two
lines. -/
theorem allocate_line_times_bounds_witness :
    2 ≤ (["ab".data, "cd".data] : List (List Char)).length ∧
    (((allocate_line_times 0 (2/5) ["ab".data, "cd".data]).all
        (fun c => decide (c.start + 9/50 ≤ c.stop))) = true ∧
      lastSnapOk (2/5) (allocate_line_times 0 (2/5) ["ab".data, "cd".data]) = true) :=
  ⟨by decide, allocate_line_times_bounds.2 0 (2/5) ["ab".data, "cd".data] (by decide)⟩

/-- Every piece emitted by the force-split loop lasts at most
`MAX_SEGMENT_SECONDS`. -/
theorem splitLongGo_dur_le (fuel : ℕ) (e cur : ℚ) :
    ∀ p ∈ splitLongGo fuel e cur, p.dur ≤ MAX_SEGMENT_SECONDS := by
  induction fuel generalizing cur with
  | zero => intro p hp; simp [splitLongGo] at hp
  | succ n ih =>
    intro p hp
    by_cases hc : cur < e - 1/20
    · rw [splitLongGo_cons n e cur hc] at hp
      rcases List.mem_cons.mp hp with rfl | hp
      · simp only [SpeechSeg.dur, MAX_SEGMENT_SECONDS]
        refine max_le (by norm_num) ?_
        have hm : ((cur + 15 : ℚ) ⊓ e) ≤ cur + 15 := min_le_left _ _
        linarith
      · exact ih _ p hp
    · rw [splitLongGo_nil _ _ _ hc] at hp
      simp at hp

/-- Every segment returned by `detect_speech_segments` lasts at most
`MAX_SEGMENT_SECONDS` (the full-duration fallbacks are also force-split). -/
theorem detect_speech_segments_dur_le (speechTs : List (ℕ × ℕ)) (totalDur : ℚ) :
    ∀ s ∈ (detect_speech_segments speechTs totalDur).1,
      s.dur ≤ MAX_SEGMENT_SECONDS := by
  intro s hs
  simp only [detect_speech_segments] at hs
  split at hs
  · simp at hs
  · simp only [List.mem_flatten, List.mem_map] at hs
    obtain ⟨l, ⟨seg, _, rfl⟩, hsl⟩ := hs
    by_cases hd : seg.dur ≤ MAX_SEGMENT_SECONDS
    · simp only [hd, if_pos, List.mem_singleton] at hsl
      exact hsl ▸ hd
    · simp only [hd, if_neg, if_false] at hsl
      exact splitLongGo_dur_le _ _ _ s hsl

/-- Membership is preserved by the stable insertion used to sort
segments. -/
theorem mem_insSortedSeg : ∀ (a x : SpeechSeg) (l : List SpeechSeg),
    x ∈ insSortedSeg a l → x = a ∨ x ∈ l
  | a, x, [], h => by
    simp only [insSortedSeg, List.mem_singleton] at h
    exact Or.inl h
  | a, x, b :: rest, h => by
    simp only [insSortedSeg] at h
    split at h
    · rcases List.mem_cons.mp h with rfl | h2
      · exact Or.inr (List.mem_cons_self _ _)
      · rcases mem_insSortedSeg a x rest h2 with h3 | h3
        · exact Or.inl h3
        · exact Or.inr (List.mem_cons_of_mem _ h3)
    · rcases List.mem_cons.mp h with rfl | h2
      · exact Or.inl rfl
      · exact Or.inr h2

/-- Membership is preserved by the stable segment sort. -/
theorem mem_sortSegs : ∀ (x : SpeechSeg) (l : List SpeechSeg),
    x ∈ sortSegs l → x ∈ l
  | x, [], h => by simp [sortSegs] at h
  | x, a :: rest, h => by
    simp only [sortSegs] at h
    rcases mem_insSortedSeg a x (sortSegs rest) h with rfl | h2
    · exact List.mem_cons_self _ _
    · exact List.mem_cons_of_mem _ (mem_sortSegs x rest h2)

/-- The merge loop of `optimize_segments_for_transcription` never creates a
segment longer than `maxDur` when fed segments of at most `maxDur`. -/
theorem optimizeGo_dur_le (minDur mergeGap maxDur : ℚ) (h0 : 0 ≤ maxDur) :
    ∀ (src acc : List SpeechSeg) (m d : ℕ),
      (∀ a ∈ acc, a.dur ≤ maxDur) → (∀ s ∈ src, s.dur ≤ maxDur) →
      ∀ x ∈ (optimizeGo minDur mergeGap maxDur acc m d src).1, x.dur ≤ maxDur
  | [], acc, m, d, hacc, _, x, hx => by
    simp only [optimizeGo, List.mem_reverse] at hx
    exact hacc x hx
  | seg :: rest, acc, m, d, hacc, hsrc, x, hx => by
    have hseg := hsrc seg (List.mem_cons_self _ _)
    have hrest : ∀ s ∈ rest, s.dur ≤ maxDur :=
      fun s hs => hsrc s (List.mem_cons_of_mem _ hs)
    simp only [optimizeGo] at hx
    split at hx
    · exact optimizeGo_dur_le minDur mergeGap maxDur h0 rest (seg :: acc) m d
        (by
          intro a ha
          rcases List.mem_cons.mp ha with rfl | ha
          · exact hseg
          · exact hacc a ha) hrest x hx
    · split at hx
      · rename_i prev accT
        split at hx
        · rename_i hcond
          refine optimizeGo_dur_le minDur mergeGap maxDur h0 rest _ _ _ ?_ hrest x hx
          intro a ha
          rcases List.mem_cons.mp ha with rfl | ha
          · have hprev : prev.dur ≤ maxDur := hacc prev (List.mem_cons_self _ _)
            simp only [SpeechSeg.dur] at hprev ⊢
            refine max_le h0 ?_
            have h1 : prev.stop - prev.start ≤ maxDur :=
              le_trans (le_max_right 0 _) hprev
            have h2 : seg.stop - prev.start ≤ maxDur := hcond.2
            have : max prev.stop seg.stop - prev.start =
                max (prev.stop - prev.start) (seg.stop - prev.start) := by
              rw [max_sub_sub_right]
            rw [this]
            exact max_le h1 h2
          · exact hacc a (List.mem_cons_of_mem _ ha)
        · split at hx
          · exact optimizeGo_dur_le minDur mergeGap maxDur h0 rest _ _ _
              (by
                intro a ha
                rcases List.mem_cons.mp ha with rfl | ha
                · exact hseg
                · exact hacc a ha) hrest x hx
          · exact optimizeGo_dur_le minDur mergeGap maxDur h0 rest _ _ _ hacc hrest x hx
      · split at hx
        · exact optimizeGo_dur_le minDur mergeGap maxDur h0 rest _ _ _
            (by
              intro a ha
              rcases List.mem_cons.mp ha with rfl | ha
              · exact hseg
              · simp at ha) hrest x hx
        · exact optimizeGo_dur_le minDur mergeGap maxDur h0 rest _ _ _
            (by intro a ha; simp at ha) hrest x hx

/-- C3 (amended): every segment list produced by the segmentation pipeline
(`detect_speech_segments` followed by
`optimize_segments_for_transcription`, at the default
`MAX_SEGMENT_SECONDS = 15`) consists of segments of duration at most
`MAX_SEGMENT_SECONDS`, for every VAD output and every (clamped) merge
option; the claimed lower bound `MIN_SEGMENT_SECONDS` does not hold in
general (see the counterexample). -/
theorem segmentation_duration_upper_bound (speechTs : List (ℕ × ℕ))
    (totalDur minT gap : ℚ) :
    ((optimize_segments_for_transcription
        (detect_speech_segments speechTs totalDur).1 minT gap
        MAX_SEGMENT_SECONDS).1.all
      (fun s => decide (s.dur ≤ MAX_SEGMENT_SECONDS))) = true := by
  rw [List.all_eq_true]
  intro s hs
  rw [decide_eq_true_eq]
  have hmax : max 2 MAX_SEGMENT_SECONDS = MAX_SEGMENT_SECONDS := by
    simp [MAX_SEGMENT_SECONDS]
    norm_num
  have hdet := detect_speech_segments_dur_le speechTs totalDur
  have h0 : (0 : ℚ) ≤ max 2 MAX_SEGMENT_SECONDS := le_trans (by norm_num) (le_max_left _ _)
  have hsrcBound : ∀ t ∈ sortSegs (detect_speech_segments speechTs totalDur).1,
      t.dur ≤ max 2 MAX_SEGMENT_SECONDS := by
    intro t ht
    rw [hmax]
    exact hdet t (mem_sortSegs _ _ ht)
  revert hs
  simp only [optimize_segments_for_transcription]
  split
  · intro hs; simp at hs
  · split
    · intro hs
      exact hdet s (mem_sortSegs _ _ (List.mem_of_mem_take hs))
    · intro hs
      have hle := optimizeGo_dur_le (qclamp minT (1/5) 2) (qclamp gap 0 1)
        (max 2 MAX_SEGMENT_SECONDS) h0
        (sortSegs (detect_speech_segments speechTs totalDur).1) [] 0 0
        (by intro a ha; simp at ha) hsrcBound s hs
      rw [hmax] at hle
      exact hle

/-- Digits produced by the digit loop are below 10. -/
theorem natDigitsLEGo_lt10 : ∀ (fuel n : ℕ), n ≤ fuel →
    ∀ d ∈ natDigitsLEGo fuel n, d < 10
  | 0, n, hn, d, hd => by
    interval_cases n
    simp only [natDigitsLEGo, List.mem_singleton] at hd
    omega
  | fuel + 1, n, hn, d, hd => by
    by_cases h : n < 10
    · simp only [natDigitsLEGo, if_pos h, List.mem_singleton] at hd
      omega
    · simp only [natDigitsLEGo, if_neg h, List.mem_cons] at hd
      rcases hd with rfl | hd
      · omega
      · exact natDigitsLEGo_lt10 fuel (n / 10) (by omega) d hd

/-- The digit loop computes the little-endian base-10 digits. -/
theorem natDigitsLEGo_ofDigits : ∀ (fuel n : ℕ), n ≤ fuel →
    Nat.ofDigits 10 (natDigitsLEGo fuel n) = n
  | 0, n, hn => by
    interval_cases n
    simp [natDigitsLEGo, Nat.ofDigits]
  | fuel + 1, n, hn => by
    by_cases h : n < 10
    · simp [natDigitsLEGo, if_pos h, Nat.ofDigits]
    · simp only [natDigitsLEGo, if_neg h, Nat.ofDigits_cons]
      rw [natDigitsLEGo_ofDigits fuel (n / 10) (by omega)]
      omega

/-- The digit loop never returns the empty list. -/
theorem natDigitsLEGo_ne_nil : ∀ (fuel n : ℕ), natDigitsLEGo fuel n ≠ []
  | 0, n => by simp [natDigitsLEGo]
  | fuel + 1, n => by
    by_cases h : n < 10 <;> simp [natDigitsLEGo, h]

/-- Value of a digit character of a digit below 10. -/
theorem digitVal_digitChar10 (d : ℕ) (hd : d < 10) :
    digitVal (digitChar10 d) = d := by
  interval_cases d <;> decide

/-- Digit characters of digits below 10 satisfy `isDigitChar`. -/
theorem isDigitChar_digitChar10 (d : ℕ) (hd : d < 10) :
    isDigitChar (digitChar10 d) = true := by
  interval_cases d <;> decide

/-- Folding the decimal parse over reversed mapped digits reconstructs the
little-endian value. -/
theorem foldl_digits_reverse : ∀ (ds : List ℕ), (∀ d ∈ ds, d < 10) → ∀ a : ℕ,
    List.foldl (fun acc c => acc * 10 + digitVal c) a ((ds.map digitChar10).reverse) =
      a * 10 ^ ds.length + Nat.ofDigits 10 ds
  | [], _, a => by simp
  | d :: rest, h, a => by
    have hd : d < 10 := h d (List.mem_cons_self _ _)
    have hrest : ∀ e ∈ rest, e < 10 := fun e he => h e (List.mem_cons_of_mem _ he)
    simp only [List.map_cons, List.reverse_cons, List.foldl_append, List.foldl_cons,
      List.foldl_nil]
    rw [foldl_digits_reverse rest hrest a, digitVal_digitChar10 d hd,
      Nat.ofDigits_cons]
    simp [List.length_cons, pow_succ]
    ring

/-- Parsing the decimal representation of `n` yields `n`. -/
theorem parseNatDigits_natChars (n : ℕ) : parseNatDigits (natChars n) = n := by
  have h10 := natDigitsLEGo_lt10 n n le_rfl
  have hval := natDigitsLEGo_ofDigits n n le_rfl
  have hmap : natChars n = ((natDigitsLEGo n n).map digitChar10).reverse := by
    simp [natChars, natDigitsLE, List.map_reverse]
  rw [parseNatDigits, hmap, foldl_digits_reverse _ h10 0]
  simpa using hval

/-- Leading zeros do not change the parsed decimal value. -/
theorem parseNatDigits_replicate_zero (k : ℕ) (l : List Char) :
    parseNatDigits (List.replicate k '0' ++ l) = parseNatDigits l := by
  induction k with
  | zero => rfl
  | succ m ih =>
    simp only [List.replicate_succ, List.cons_append, parseNatDigits,
      List.foldl_cons] at ih ⊢
    simpa using ih

/-- Every character of `natChars n` is a decimal digit. -/
theorem natChars_digits (n : ℕ) : ∀ c ∈ natChars n, isDigitChar c = true := by
  intro c hc
  simp only [natChars, List.mem_map, List.mem_reverse] at hc
  obtain ⟨d, hd, rfl⟩ := hc
  exact isDigitChar_digitChar10 d (natDigitsLEGo_lt10 n n le_rfl d hd)

/-- The function `natChars` never returns the empty string. -/
theorem natChars_ne_nil (n : ℕ) : natChars n ≠ [] := by
  simp only [natChars, natDigitsLE]
  intro h
  exact natDigitsLEGo_ne_nil n n (by simpa using h)

/-- Parsing a zero-padded decimal field recovers the number. -/
theorem parseDecimal_pad (k n : ℕ) :
    parseDecimal (List.replicate k '0' ++ natChars n) = some n := by
  have hne : (List.replicate k '0' ++ natChars n) ≠ [] := by
    simp [natChars_ne_nil n]
  have hdig : (List.replicate k '0' ++ natChars n).all isDigitChar = true := by
    rw [List.all_eq_true]
    intro c hc
    rcases List.mem_append.mp hc with hc | hc
    · rw [List.eq_of_mem_replicate hc]; decide
    · exact natChars_digits n c hc
  simp only [parseDecimal, if_neg hne]
  rw [if_pos]
  · rw [parseNatDigits_replicate_zero, parseNatDigits_natChars]
  · simpa [List.all_eq_true] using hdig

/-- Parsing the `pad2` field recovers the number. -/
theorem parseDecimal_pad2 (n : ℕ) : parseDecimal (pad2 n) = some n :=
  parseDecimal_pad _ n

/-- Parsing the `pad3` field recovers the number. -/
theorem parseDecimal_pad3 (n : ℕ) : parseDecimal (pad3 n) = some n :=
  parseDecimal_pad _ n

/-- Scanning `takeWhile`/`dropWhile` across a separator: when every character of `A`
satisfies `p` and `x` does not, scanning stops exactly at `x`. -/
theorem takeWhile_dropWhile_sep (p : Char → Bool) :
    ∀ (A : List Char) (x : Char) (R : List Char),
      (∀ c ∈ A, p c = true) → p x = false →
      (A ++ x :: R).takeWhile p = A ∧ (A ++ x :: R).dropWhile p = x :: R
  | [], x, R, _, hx => by simp [List.takeWhile, List.dropWhile, hx]
  | c :: A, x, R, hA, hx => by
    have hc : p c = true := hA c (List.mem_cons_self _ _)
    have htail := takeWhile_dropWhile_sep p A x R
      (fun d hd => hA d (List.mem_cons_of_mem _ hd)) hx
    simp only [List.cons_append, List.takeWhile_cons, List.dropWhile_cons, hc,
      if_true]
    exact ⟨by rw [htail.1], by rw [htail.2]⟩

/-- Digit characters are neither `:` nor `,`. -/
theorem isDigitChar_ne_sep (c : Char) (h : isDigitChar c = true) :
    (decide (c ≠ ':') = true) ∧ (decide (c ≠ ',') = true) := by
  simp only [isDigitChar, Bool.and_eq_true, decide_eq_true_eq] at h
  constructor <;> simp only [decide_eq_true_eq] <;> intro hc <;> subst hc <;>
    simp at h

/-- The pad fields contain only digit characters. -/
theorem pad_digits (k n : ℕ) : ∀ c ∈ List.replicate k '0' ++ natChars n,
    isDigitChar c = true := by
  intro c hc
  rcases List.mem_append.mp hc with hc | hc
  · rw [List.eq_of_mem_replicate hc]; decide
  · exact natChars_digits n c hc

/-- Parsing the `HH:MM:SS,mmm` rendering of a millisecond count yields its
value in seconds. -/
theorem parse_srt_format (n : ℕ) :
    parse_srt_ts (pad2 (n / 3600000) ++ ':' :: (pad2 (n % 3600000 / 60000) ++ ':' ::
      (pad2 (n % 3600000 % 60000 / 1000) ++ ',' ::
        pad3 (n % 3600000 % 60000 % 1000)))) = some ((n : ℚ) / 1000) := by
  have hh := pad_digits (2 - (natChars (n / 3600000)).length) (n / 3600000)
  have hm := pad_digits (2 - (natChars (n % 3600000 / 60000)).length) (n % 3600000 / 60000)
  have hs := pad_digits (2 - (natChars (n % 3600000 % 60000 / 1000)).length)
    (n % 3600000 % 60000 / 1000)
  have h1 := takeWhile_dropWhile_sep (fun c => decide (c ≠ ':')) (pad2 (n / 3600000)) ':'
    (pad2 (n % 3600000 / 60000) ++ ':' :: (pad2 (n % 3600000 % 60000 / 1000) ++ ',' ::
      pad3 (n % 3600000 % 60000 % 1000)))
    (fun c hc => (isDigitChar_ne_sep c (hh c hc)).1) (by decide)
  have h2 := takeWhile_dropWhile_sep (fun c => decide (c ≠ ':'))
    (pad2 (n % 3600000 / 60000)) ':'
    (pad2 (n % 3600000 % 60000 / 1000) ++ ',' :: pad3 (n % 3600000 % 60000 % 1000))
    (fun c hc => (isDigitChar_ne_sep c (hm c hc)).1) (by decide)
  have h3 := takeWhile_dropWhile_sep (fun c => decide (c ≠ ','))
    (pad2 (n % 3600000 % 60000 / 1000)) ','
    (pad3 (n % 3600000 % 60000 % 1000))
    (fun c hc => (isDigitChar_ne_sep c (hs c hc)).2) (by decide)
  simp only [parse_srt_ts, h1.1, h1.2, List.drop_succ_cons, List.drop_zero,
    h2.1, h2.2, h3.1, h3.2, parseDecimal_pad2, parseDecimal_pad3]
  have hn : n = 3600000 * (n / 3600000) + 60000 * (n % 3600000 / 60000) +
      1000 * (n % 3600000 % 60000 / 1000) + n % 3600000 % 60000 % 1000 := by
    omega
  congr 1
  rw [eq_div_iff (by norm_num : (1000 : ℚ) ≠ 0)]
  have hcast : (n : ℚ) = 3600000 * ((n / 3600000 : ℕ) : ℚ) +
      60000 * ((n % 3600000 / 60000 : ℕ) : ℚ) +
      1000 * ((n % 3600000 % 60000 / 1000 : ℕ) : ℚ) +
      ((n % 3600000 % 60000 % 1000 : ℕ) : ℚ) := by
    rw [show ((n : ℚ)) = ((3600000 * (n / 3600000) + 60000 * (n % 3600000 / 60000) +
        1000 * (n % 3600000 % 60000 / 1000) + n % 3600000 % 60000 % 1000 : ℕ) : ℚ)
      from by rw [← hn]]
    push_cast
    ring
  rw [hcast]
  ring

/-- Python `round` of a nonnegative value is nonnegative. -/
theorem pyRound_nonneg (x : ℚ) (hx : 0 ≤ x) : 0 ≤ pyRound x := by
  have hf : (0 : ℤ) ≤ ⌊x⌋ := Int.floor_nonneg.mpr hx
  simp only [pyRound]
  split
  · exact hf
  · split
    · omega
    · split <;> omega

/-- C9 (amended): for every time `x`, parsing the timestamp string
`srt_ts(x)` (format `HH:MM:SS,mmm`) back to seconds yields
`round(max(0, x) * 1000) / 1000`, with `round` Python's round-half-to-even;
for `x ≥ 0` this is the claimed `round(x*1000)/1000`, while negative `x` is
clamped to zero by `srt_ts` (see the counterexample). -/
theorem srt_ts_roundtrip (x : ℚ) :
    parse_srt_ts (srt_ts x) = some ((pyRound (max 0 x * 1000) : ℚ) / 1000) := by
  have hnn : 0 ≤ pyRound (max 0 x * 1000) :=
    pyRound_nonneg _ (mul_nonneg (le_max_left 0 x) (by norm_num))
  have hcast : ((pyRound (max 0 x * 1000) : ℤ) : ℚ) =
      (((pyRound (max 0 x * 1000)).toNat : ℕ) : ℚ) := by
    exact_mod_cast (Int.toNat_of_nonneg hnn).symm
  rw [show srt_ts x = (pad2 ((pyRound (max 0 x * 1000)).toNat / 3600000) ++ ':' ::
      (pad2 ((pyRound (max 0 x * 1000)).toNat % 3600000 / 60000) ++ ':' ::
      (pad2 ((pyRound (max 0 x * 1000)).toNat % 3600000 % 60000 / 1000) ++ ',' ::
        pad3 ((pyRound (max 0 x * 1000)).toNat % 3600000 % 60000 % 1000)))) from rfl]
  rw [parse_srt_format]
  rw [hcast]

/-- Stripping never lengthens a string. -/
theorem pyStrip_length_le (l : List Char) : (pyStrip l).length ≤ l.length := by
  simp only [pyStrip, List.length_reverse]
  calc ((l.dropWhile isPyWs).reverse.dropWhile isPyWs).length
      ≤ (l.dropWhile isPyWs).reverse.length :=
        (List.dropWhile_sublist _).length_le
    _ = (l.dropWhile isPyWs).length := List.length_reverse _
    _ ≤ l.length := (List.dropWhile_sublist _).length_le

/-- Every hard-cut chunk has at most `b` characters. -/
theorem hardChunksGo_bound (b : ℕ) : ∀ (fuel : ℕ) (l : List Char),
    ∀ x ∈ hardChunksGo b fuel l, x.length ≤ b
  | 0, l, x, hx => by
    cases l <;> simp [hardChunksGo] at hx
  | fuel + 1, [], x, hx => by simp [hardChunksGo] at hx
  | fuel + 1, c :: rest, x, hx => by
    simp only [hardChunksGo, List.mem_cons] at hx
    rcases hx with rfl | hx
    · exact List.length_take_le b (c :: rest)
    · exact hardChunksGo_bound b fuel (rest.drop (b - 1)) x hx

/-- Lines emitted by the flush have the accumulator's length at most. -/
theorem flushCur_bound (cur : List Char) (N : ℕ) (h : cur.length ≤ N) :
    ∀ l ∈ flushCur cur, l.length ≤ N := by
  intro l hl
  simp only [flushCur] at hl
  split at hl
  · simp at hl
  · simp only [List.mem_singleton] at hl
    exact hl ▸ le_trans (pyStrip_length_le cur) h

/-- The packing loop of `split_text_for_srt` only emits lines of length at
most `max (budget + 6) (9 * budget / 5)`. -/
theorem packGo_bound (budget : ℕ) :
    ∀ (sentences : List (List Char)) (cur : List Char) (acc : List (List Char)),
      (∀ l ∈ acc, l.length ≤ max (budget + 6) (9 * budget / 5)) →
      cur.length ≤ max (budget + 6) (9 * budget / 5) →
      ∀ l ∈ packGo budget sentences cur acc,
        l.length ≤ max (budget + 6) (9 * budget / 5)
  | [], cur, acc, hacc, hcur, l, hl => by
    simp only [packGo, List.mem_append] at hl
    rcases hl with hl | hl
    · exact hacc l hl
    · exact flushCur_bound cur _ hcur l hl
  | s :: rest, cur, acc, hacc, hcur, l, hl => by
    have hb6 : budget ≤ max (budget + 6) (9 * budget / 5) :=
      le_trans (by omega) (le_max_left _ _)
    simp only [packGo] at hl
    split at hl
    · exact packGo_bound budget rest cur acc hacc hcur l hl
    · split at hl
      · refine packGo_bound budget rest [] _ ?_ (by simp) l hl
        intro m hm
        rcases List.mem_append.mp hm with hm | hm
        · rcases List.mem_append.mp hm with hm | hm
          · exact hacc m hm
          · exact flushCur_bound cur _ hcur m hm
        · exact le_trans (hardChunksGo_bound budget _ _ m hm) hb6
      · split at hl
        · refine packGo_bound budget rest (pyStrip s) acc hacc ?_ l hl
          rename_i hlong _
          rw [not_lt] at hlong
          refine le_trans ?_ (le_max_right _ _)
          rw [Nat.le_div_iff_mul_le (by norm_num)]
          omega
        · split at hl <;> split at hl
          · refine packGo_bound budget rest _ acc hacc ?_ l hl
            rename_i hcand
            exact le_trans hcand hb6
          · refine packGo_bound budget rest (pyStrip s) _ ?_ ?_ l hl
            · intro m hm
              rcases List.mem_append.mp hm with hm | hm
              · exact hacc m hm
              · exact flushCur_bound cur _ hcur m hm
            · rename_i hlong _ _ _
              rw [not_lt] at hlong
              refine le_trans ?_ (le_max_right _ _)
              rw [Nat.le_div_iff_mul_le (by norm_num)]
              omega
          · refine packGo_bound budget rest _ acc hacc ?_ l hl
            rename_i hcand
            exact le_trans hcand hb6
          · refine packGo_bound budget rest (pyStrip s) _ ?_ ?_ l hl
            · intro m hm
              rcases List.mem_append.mp hm with hm | hm
              · exact hacc m hm
              · exact flushCur_bound cur _ hcur m hm
            · rename_i hlong _ _ _
              rw [not_lt] at hlong
              refine le_trans ?_ (le_max_right _ _)
              rw [Nat.le_div_iff_mul_le (by norm_num)]
              omega

/-- The short-line merge pass preserves the length bound. -/
theorem mergeShortGo_bound (budget : ℕ) :
    ∀ (lines acc : List (List Char)),
      (∀ l ∈ acc, l.length ≤ max (budget + 6) (9 * budget / 5)) →
      (∀ l ∈ lines, l.length ≤ max (budget + 6) (9 * budget / 5)) →
      ∀ l ∈ mergeShortGo budget acc lines,
        l.length ≤ max (budget + 6) (9 * budget / 5)
  | [], acc, hacc, _, l, hl => by
    simp only [mergeShortGo, List.mem_reverse] at hl
    exact hacc l hl
  | line :: rest, [], _, hlines, l, hl => by
    refine mergeShortGo_bound budget rest [line] ?_
      (fun m hm => hlines m (List.mem_cons_of_mem _ hm)) l hl
    intro m hm
    rcases List.mem_cons.mp hm with rfl | hm
    · exact hlines m (List.mem_cons_self _ _)
    · simp at hm
  | line :: rest, prev :: accT, hacc, hlines, l, hl => by
    have hline := hlines line (List.mem_cons_self _ _)
    have hrest : ∀ m ∈ rest, m.length ≤ max (budget + 6) (9 * budget / 5) :=
      fun m hm => hlines m (List.mem_cons_of_mem _ hm)
    simp only [mergeShortGo] at hl
    split at hl
    · rename_i hcond
      refine mergeShortGo_bound budget rest _ ?_ hrest l hl
      intro m hm
      rcases List.mem_cons.mp hm with rfl | hm
      · have hsum : prev.length + line.length + 1 ≤ budget + 6 := hcond.2
        have hsep : (if lastIsAlnum prev then [' '] else []).length ≤ 1 := by
          split <;> simp
        refine le_trans ?_ (le_max_left _ _)
        simp only [List.length_append]
        omega
      · exact hacc m (List.mem_cons_of_mem _ hm)
    · refine mergeShortGo_bound budget rest _ ?_ hrest l hl
      intro m hm
      rcases List.mem_cons.mp hm with rfl | hm
      · exact hline
      · exact hacc m hm

/-- C10: every line returned by `split_text_for_srt` has length at most
`max (B + 6, ⌊B * 1.8⌋)` for the clamped budget `B`; and the budget is not a
hard cap — a single sentence of length up to `B * 1.8` is emitted as one
line without being cut, witnessed here by an 18-character sentence at
budget 10. -/
theorem split_text_for_srt_length_bound :
    (∀ (text language : List Char) (maxChars : Option ℕ) (model : List Char),
      ((split_text_for_srt text language maxChars model).all
        (fun l => decide (l.length ≤
          max (clamped_budget language maxChars model + 6)
            (9 * clamped_budget language maxChars model / 5)))) = true) ∧
    (split_text_for_srt (List.replicate 18 'a') "zh".data (some 10) "".data =
      [List.replicate 18 'a'] ∧
     10 < (List.replicate 18 'a').length ∧
     clamped_budget "zh".data (some 10) "".data = 10) := by
  constructor
  · intro text language maxChars model
    rw [List.all_eq_true]
    intro l hl
    rw [decide_eq_true_eq]
    revert hl
    simp only [split_text_for_srt]
    split
    · intro hl; simp at hl
    · intro hl
      exact mergeShortGo_bound (clamped_budget language maxChars model) _ []
        (by intro m hm; simp at hm)
        (packGo_bound _ _ [] [] (by intro m hm; simp at hm) (by simp)) l hl
  · refine ⟨by decide, by decide, by decide⟩

end ZM
